import Mathlib

/-!
Verification of the nesium differential-testing tools.

Shallow embedding of the trace/frame divergence engine of the `nesium`
repository (`tools/compare_ppu_reg_traces.py`, `tools/diff_apu_trace.py`,
`tools/diff_nmi_trace.py`, `tools/diff_rgb24_frames.py`,
`tools/analyze_mask_diff.py`, `tools/find_first_palette_index_diff.py`),
together with proofs and refutations of the specified properties.

Modelling conventions:
* Python strings are modelled as Lean `String`/`List Char`; `str.strip`,
  `str.lower` and `int(x, base)` are modelled for the ASCII fragment the
  traces use (Python's `int` additionally accepts signs and underscores,
  which never occur in the trace grammar and are treated as malformed here).
* Python byte buffers are `List Nat` (one entry per byte).
* Machine floats (the 0.84 emphasis attenuation) are modelled as exact
  rationals; the clamped results are truncated toward zero exactly as the
  code does, and no theorem below depends on float rounding.
* Fallible code (`raise ValueError`, uncaught exceptions) is modelled with
  `Except String`; printing is dropped, and functions whose observable
  result is the process exit status return that status.
-/

set_option maxHeartbeats 1000000
set_option maxRecDepth 10000

deriving instance DecidableEq for Except

namespace Nesium

/-! ## ASCII string utilities shared by the tools -/

/-- Python `str.strip` / `str.lower` whitespace test, restricted to the ASCII
whitespace that can occur in trace lines (space, tab, LF, CR). -/
def isSpaceChar (c : Char) : Bool :=
  c.toNat == 32 || c.toNat == 9 || c.toNat == 10 || c.toNat == 13

/-- ASCII fragment of Python `str.lower`, applied characterwise. -/
def toLowerChar (c : Char) : Char :=
  if 65 ≤ c.toNat ∧ c.toNat ≤ 90 then Char.ofNat (c.toNat + 32) else c

/-- Python `str.strip`: drop whitespace from both ends. -/
def stripChars (cs : List Char) : List Char :=
  ((cs.dropWhile isSpaceChar).reverse.dropWhile isSpaceChar).reverse

/-- Value of one hexadecimal digit, accepting both letter cases
(the digit classes recognized by Python `int(x, 16)`). -/
def hexDigitVal? (c : Char) : Option Nat :=
  if 48 ≤ c.toNat ∧ c.toNat ≤ 57 then some (c.toNat - 48)
  else if 97 ≤ c.toNat ∧ c.toNat ≤ 102 then some (c.toNat - 87)
  else if 65 ≤ c.toNat ∧ c.toNat ≤ 70 then some (c.toNat - 55)
  else none

/-- Digit value in a given base (used with base 10 and base 16, matching the
`int(v, base)` calls in `compare_ppu_reg_traces.py`). -/
def digitValBase? (base : Nat) (c : Char) : Option Nat :=
  match hexDigitVal? c with
  | some d => if d < base then some d else none
  | none => none

/-- Accumulating digit parser underlying the `int(v, base)` model. -/
def parseNatAux (base : Nat) : List Char → Nat → Option Nat
  | [], acc => some acc
  | c :: cs, acc =>
    match digitValBase? base c with
    | none => none
    | some d => parseNatAux base cs (base * acc + d)

/-- Parse a nonempty all-digit string in the given base. -/
def parseNatBase? (base : Nat) (cs : List Char) : Option Nat :=
  match cs with
  | [] => none
  | _ => parseNatAux base cs 0

/-- Model of Python `int(s, base)` for the nonnegative numerals occurring in
trace files: optional surrounding whitespace, an optional `0x`/`0X` prefix
when the base is 16, then a nonempty digit string.  `none` models the
`ValueError` raised on malformed input. -/
def parseIntBase? (base : Nat) (s : String) : Option Nat :=
  let cs := stripChars s.data
  let cs := if base = 16 ∧ (cs.take 2 = ['0', 'x'] ∨ cs.take 2 = ['0', 'X']) then cs.drop 2 else cs
  parseNatBase? base cs

/-- Upper-case hexadecimal digit character, as produced by Python `"%X"`. -/
def hexDigitChar (d : Nat) : Char :=
  if d < 10 then Char.ofNat (48 + d) else Char.ofNat (55 + d)

/-- Big-endian upper-case hex digits of `n`; the first argument is fuel
(any bound `≥ n` makes it total on `n`). -/
def toHexAux : Nat → Nat → List Char
  | 0, _ => []
  | fuel + 1, n => if n = 0 then [] else toHexAux fuel (n / 16) ++ [hexDigitChar (n % 16)]

/-- Upper-case hexadecimal representation of `n`, as Python `"%X" % n`. -/
def natHexRepr (n : Nat) : List Char :=
  if n = 0 then ['0'] else toHexAux (n + 1) n

/-- Left-pad with `'0'` to width `w`, as Python `"%0wX"` (a minimum width:
longer representations are kept whole). -/
def padLeftZeros (w : Nat) (cs : List Char) : List Char :=
  List.replicate (w - cs.length) '0' ++ cs

/-- Python `line.split(sep)` for a one-character separator. -/
def splitOnCharAux (sep : Char) : List Char → List Char → List (List Char)
  | [], cur => [cur.reverse]
  | c :: rest, cur =>
    if c = sep then cur.reverse :: splitOnCharAux sep rest []
    else splitOnCharAux sep rest (c :: cur)

/-- Python `line.split(sep)` for a one-character separator. -/
def splitOnChar (sep : Char) (cs : List Char) : List (List Char) :=
  splitOnCharAux sep cs []

/-- Python `part.split("=", 1)` guarded by `"=" in part`: split the segment at
its first `=`, or `none` when it contains no `=`. -/
def splitKV (part : List Char) : Option (String × String) :=
  if part.contains '=' then
    some (String.mk (part.takeWhile (fun c => c ≠ '=')),
          String.mk ((part.dropWhile (fun c => c ≠ '=')).drop 1))
  else none

/-- Python `s.startswith(pre)`. -/
def startsWithStr (s pre : String) : Bool :=
  s.data.take pre.data.length == pre.data

/-- Python `dict.get` over the key/value pairs collected from one line; a later
binding of the same key overwrites an earlier one, so the last match wins. -/
def dictGet (fields : List (String × String)) (k : String) : Option String :=
  (fields.reverse.find? (fun p => p.1 == k)).map (fun p => p.2)

/-- `parse_fields` from `diff_apu_trace.py` / `diff_nmi_trace.py`: strip the
line, split on `|`, and keep the key/value split of every segment containing
an `=`. -/
def parse_fields (line : String) : List (String × String) :=
  (splitOnChar '|' (stripChars line.data)).filterMap splitKV

/-- The characters between the optional `0x` prefix and the end of the
stripped, lowered input: the digit string `normalize_hex` hands to `int`. -/
def hex_body (value : String) : List Char :=
  let v := (stripChars value.data).map toLowerChar
  if v.take 2 = ['0', 'x'] then v.drop 2 else v

/-- `normalize_hex` from `diff_apu_trace.py` (an identical copy exists in
`diff_nmi_trace.py`): strip, lower, drop an optional `0x` prefix, map the
empty string to `width` zeros, and otherwise format the parsed value as
upper-case hex padded to `width`.  The `ValueError` that `int(value, 16)`
raises on malformed input is modelled as `Except.error`, and it propagates
to the caller exactly as the uncaught Python exception does. -/
def normalize_hex (value : String) (width : Nat) : Except String String :=
  let v := hex_body value
  if v = [] then .ok (String.mk (List.replicate width '0'))
  else
    match parseIntBase? 16 (String.mk v) with
    | none => .error ("invalid hex: " ++ value)
    | some n => .ok (String.mk (padLeftZeros width (natHexRepr n)))

/-! ## `tools/compare_ppu_reg_traces.py` -/

namespace PpuReg

/-- The `Event` dataclass of `compare_ppu_reg_traces.py`: one parsed
`PPUREG|ev=write` line.  Numeric fields default to the sentinel `-1` when
absent or unparsable. -/
structure Event where
  raw : String
  src : String
  ev : String
  cpu_cycle : Int
  frame : Int
  scanline : Int
  dot : Int
  addr : Int
  value : Int
  v : Int
  t : Int
  x : Int
deriving DecidableEq, Repr

instance : Inhabited Event :=
  ⟨{ raw := "", src := "", ev := "", cpu_cycle := -1, frame := -1, scanline := -1,
     dot := -1, addr := -1, value := -1, v := -1, t := -1, x := -1 }⟩

/-- `parse_line.get_int`: look the field up in the line's key/value map and
parse it in the given base; absent or malformed values become `-1`. -/
def get_int (fields : List (String × String)) (name : String) (base : Nat) : Int :=
  match dictGet fields name with
  | none => -1
  | some v =>
    match parseIntBase? base v with
    | none => -1
    | some n => (n : Int)

/-- Key/value segments of a `PPUREG` line: everything after the first `|`. -/
def ppu_line_fields (line : String) : List (String × String) :=
  ((splitOnChar '|' line.data).drop 1).filterMap splitKV

/-- `parse_line` from `compare_ppu_reg_traces.py`.  `none` models both the
"not a recognized line" and the `ev != "write"` filters. -/
def parse_line (line : String) : Option Event :=
  let line := String.mk (stripChars line.data)
  if line = "" ∨ ¬ startsWithStr line "PPUREG|" then none
  else
    let fields := ppu_line_fields line
    if dictGet fields "ev" ≠ some "write" then none
    else some
      { raw := line
        src := (dictGet fields "src").getD ""
        ev := (dictGet fields "ev").getD ""
        cpu_cycle := get_int fields "cpu_cycle" 10
        frame := get_int fields "frame" 10
        scanline := get_int fields "scanline" 10
        dot := get_int fields "dot" 10
        addr := get_int fields "addr" 16
        value := get_int fields "value" 16
        v := get_int fields "v" 16
        t := get_int fields "t" 16
        x := get_int fields "x" 16 }

/-- `load_events`: parse every line, keeping the recognized ones in order. -/
def load_events (lines : List String) : List Event :=
  lines.filterMap parse_line

/-- The nine comparison field names accepted by `--fields` (`main` rejects
anything outside this set before `first_mismatch` runs). -/
inductive Field where
  | cpu_cycle | frame | scanline | dot | addr | value | v | t | x
deriving DecidableEq, Repr

/-- `event_field_value`: project the selected field of an event. -/
def event_field_value (e : Event) (f : Field) : Int :=
  match f with
  | .cpu_cycle => e.cpu_cycle
  | .frame => e.frame
  | .scanline => e.scanline
  | .dot => e.dot
  | .addr => e.addr
  | .value => e.value
  | .v => e.v
  | .t => e.t
  | .x => e.x

/-- Loop body of `first_mismatch`, walking both sequences positionally from
index `i`: return at the first index where a selected field differs; after
the common prefix, a length mismatch is reported at the shorter length with
the exhausted side `none`; full agreement yields `(-1, none, none)`. -/
def first_mismatch_go (fields : List Field) :
    List Event → List Event → Nat → Int × Option Event × Option Event
  | [], [], _ => (-1, none, none)
  | [], y :: _, i => ((i : Int), none, some y)
  | x :: _, [], i => ((i : Int), some x, none)
  | x :: xs, y :: ys, i =>
    if fields.any (fun f => event_field_value x f != event_field_value y f) then
      ((i : Int), some x, some y)
    else first_mismatch_go fields xs ys (i + 1)

/-- `first_mismatch` from `compare_ppu_reg_traces.py`. -/
def first_mismatch (a b : List Event) (fields : List Field) :
    Int × Option Event × Option Event :=
  first_mismatch_go fields a b 0

/-- The two events at position `i` disagree on a selected field. -/
def DiffAt (a b : List Event) (fields : List Field) (i : Nat) : Prop :=
  ∃ f ∈ fields, event_field_value (a.getD i default) f ≠ event_field_value (b.getD i default) f

instance (a b : List Event) (fields : List Field) (i : Nat) :
    Decidable (DiffAt a b fields i) :=
  List.decidableBEx _ fields

/-- Exit status of `compare_ppu_reg_traces.main` once both traces are loaded
and the field selection is validated: `0` when `first_mismatch` reports no
divergence (`idx < 0`), `1` otherwise (printing dropped). -/
def ppu_main_status (a b : List Event) (fields : List Field) : Nat :=
  if (first_mismatch a b fields).1 < 0 then 0 else 1

end PpuReg

/-! ## `tools/diff_apu_trace.py` -/

namespace ApuTrace

/-- The `TraceEvent` dataclass of `diff_apu_trace.py`. -/
structure TraceEvent where
  index : Nat
  ev : String
  addr : String
  value : String
  raw : String
  fields : List (String × String)
deriving DecidableEq, Repr

instance : Inhabited TraceEvent := ⟨{ index := 0, ev := "", addr := "", value := "", raw := "", fields := [] }⟩

/-- The `allowed_events` set of `parse_events`. -/
def apu_allowed (include_read_mem : Bool) : List String :=
  if include_read_mem then ["read", "write", "read_mem"] else ["read", "write"]

/-- Loop body of `parse_events`: events accumulate in reverse (`acc.length`
is the next `index`); an error from `normalize_hex` aborts the whole parse,
exactly as the uncaught `ValueError` does in Python. -/
def parse_events_go (inc : Bool) : List String → List TraceEvent → Except String (List TraceEvent)
  | [], acc => .ok acc.reverse
  | line :: rest, acc =>
    if ¬ startsWithStr line "APUTRACE|" then parse_events_go inc rest acc
    else
      let fields := parse_fields line
      let ev := (dictGet fields "ev").getD ""
      if ev ∉ apu_allowed inc then parse_events_go inc rest acc
      else
        let addr_raw := (dictGet fields "addr").getD ""
        if addr_raw = "" then parse_events_go inc rest acc
        else
          match normalize_hex addr_raw 4 with
          | .error e => .error e
          | .ok addr =>
            match normalize_hex ((dictGet fields "value").getD "00") 2 with
            | .error e => .error e
            | .ok value =>
              parse_events_go inc rest
                ({ index := acc.length, ev := ev, addr := addr, value := value,
                   raw := line, fields := fields } :: acc)

/-- `parse_events` from `diff_apu_trace.py`, over pre-split lines. -/
def parse_events (lines : List String) (include_read_mem : Bool) :
    Except String (List TraceEvent) :=
  parse_events_go include_read_mem lines []

/-- The triple `(m.ev, m.addr, m.value)` compared at each position. -/
def apu_key (e : TraceEvent) : String × String × String :=
  (e.ev, e.addr, e.value)

/-- `compare_events` from `diff_apu_trace.py`, reduced to its return value
(the process exit status): walk the common prefix positionally, return `1` at
the first key mismatch, then `1` on a length mismatch, else `0`. -/
def compare_events : List TraceEvent → List TraceEvent → Nat
  | [], [] => 0
  | [], _ :: _ => 1
  | _ :: _, [] => 1
  | m :: ms, n :: ns => if apu_key m ≠ apu_key n then 1 else compare_events ms ns

end ApuTrace

/-! ## `tools/diff_nmi_trace.py` -/

namespace NmiTrace

/-- The `TraceEvent` dataclass of `diff_nmi_trace.py`; `nmi_take` events carry
no address/value. -/
structure TraceEvent where
  index : Nat
  ev : String
  addr : Option String
  value : Option String
  raw : String
  fields : List (String × String)
deriving DecidableEq, Repr

instance : Inhabited TraceEvent := ⟨{ index := 0, ev := "", addr := none, value := none, raw := "", fields := [] }⟩

/-- `normalize_event`: map the two sources' vocabularies onto the canonical
kind set; `none` drops the line. -/
def normalize_event (src ev : String) : Option String :=
  if ev = "read" ∨ ev = "write" then some ev
  else if src = "mesen" ∧ ev = "nmi_event" then some "nmi_take"
  else if src = "nesium" ∧ ev = "nmi_take" then some "nmi_take"
  else none

/-- Loop body of `parse_events` from `diff_nmi_trace.py`; a `normalize_hex`
failure aborts the parse as in Python. -/
def parse_events_go : List String → List TraceEvent → Except String (List TraceEvent)
  | [], acc => .ok acc.reverse
  | line :: rest, acc =>
    if ¬ startsWithStr line "NMITRACE|" then parse_events_go rest acc
    else
      let fields := parse_fields line
      let src := (dictGet fields "src").getD ""
      let ev := (dictGet fields "ev").getD ""
      match normalize_event src ev with
      | none => parse_events_go rest acc
      | some norm_ev =>
        if norm_ev = "read" ∨ norm_ev = "write" then
          match dictGet fields "addr", dictGet fields "value" with
          | some addr, some value =>
            match normalize_hex addr 4 with
            | .error e => .error e
            | .ok addr4 =>
              match normalize_hex value 2 with
              | .error e => .error e
              | .ok value2 =>
                parse_events_go rest
                  ({ index := acc.length, ev := norm_ev, addr := some addr4,
                     value := some value2, raw := line, fields := fields } :: acc)
          | _, _ => parse_events_go rest acc
        else
          parse_events_go rest
            ({ index := acc.length, ev := norm_ev, addr := none, value := none,
               raw := line, fields := fields } :: acc)

/-- `parse_events` from `diff_nmi_trace.py`, over pre-split lines. -/
def parse_events (lines : List String) : Except String (List TraceEvent) :=
  parse_events_go lines []

/-- `key_of`: the compared triple. -/
def key_of (e : TraceEvent) : String × Option String × Option String :=
  (e.ev, e.addr, e.value)

/-- `compare_events` from `diff_nmi_trace.py`, reduced to its exit status. -/
def compare_events : List TraceEvent → List TraceEvent → Nat
  | [], [] => 0
  | [], _ :: _ => 1
  | _ :: _, [] => 1
  | m :: ms, n :: ns => if key_of m ≠ key_of n then 1 else compare_events ms ns

end NmiTrace

/-! ## `tools/diff_rgb24_frames.py` -/

namespace Rgb24

/-- `read_rgb24`: return the raw bytes, or raise (modelled as `Except.error`)
when the byte length does not match the expected geometry. -/
def read_rgb24 (data : List Nat) (expected_bytes : Nat) : Except String (List Nat) :=
  if data.length = expected_bytes then .ok data
  else .error "rgb24 size mismatch"

/-- `iter_pixels`: the buffer read three bytes at a time.  (Python indexes
`buf[i+1]`/`buf[i+2]` directly; `main` has already validated the length as a
multiple of 3, on which this chunking agrees with the source.) -/
def iter_pixels (buf : List Nat) : List (Nat × Nat × Nat) :=
  (List.range (buf.length / 3)).map
    (fun i => (buf.getD (3 * i) 0, buf.getD (3 * i + 1) 0, buf.getD (3 * i + 2) 0))

/-- The mutable state of `compute_frame_diff`'s pixel loop. -/
structure DiffAcc where
  pixels_diff : Nat
  sum_abs_r : Nat
  sum_abs_g : Nat
  sum_abs_b : Nat
  max_abs_r : Nat
  max_abs_g : Nat
  max_abs_b : Nat
  delta_counts : List ((Int × Int × Int) × Nat)
  row_counts : List Nat
  col_counts : List Nat
  min_x : Int
  min_y : Int
  max_x : Int
  max_y : Int
deriving Repr

/-- `Counter` update: increment the count of `k`, first-insertion order kept. -/
def counter_incr (l : List ((Int × Int × Int) × Nat)) (k : Int × Int × Int) :
    List ((Int × Int × Int) × Nat) :=
  match l with
  | [] => [(k, 1)]
  | (k0, c) :: rest => if k0 = k then (k0, c + 1) :: rest else (k0, c) :: counter_incr rest k

/-- One iteration of the pixel loop of `compute_frame_diff`: skip equal
pixels, otherwise accumulate counts, sums, maxima and the bounding box. -/
def diff_step (width : Nat) (acc : DiffAcc) (idx : Nat) (pa pb : Nat × Nat × Nat) : DiffAcc :=
  let dr : Int := (pb.1 : Int) - (pa.1 : Int)
  let dg : Int := (pb.2.1 : Int) - (pa.2.1 : Int)
  let db : Int := (pb.2.2 : Int) - (pa.2.2 : Int)
  if dr = 0 ∧ dg = 0 ∧ db = 0 then acc
  else
    let ar := dr.natAbs
    let ag := dg.natAbs
    let ab := db.natAbs
    let y := idx / width
    let x := idx % width
    { pixels_diff := acc.pixels_diff + 1
      sum_abs_r := acc.sum_abs_r + ar
      sum_abs_g := acc.sum_abs_g + ag
      sum_abs_b := acc.sum_abs_b + ab
      max_abs_r := if ar > acc.max_abs_r then ar else acc.max_abs_r
      max_abs_g := if ag > acc.max_abs_g then ag else acc.max_abs_g
      max_abs_b := if ab > acc.max_abs_b then ab else acc.max_abs_b
      delta_counts := counter_incr acc.delta_counts (dr, dg, db)
      row_counts := acc.row_counts.set y (acc.row_counts.getD y 0 + 1)
      col_counts := acc.col_counts.set x (acc.col_counts.getD x 0 + 1)
      min_x := if (x : Int) < acc.min_x then (x : Int) else acc.min_x
      min_y := if (y : Int) < acc.min_y then (y : Int) else acc.min_y
      max_x := if (x : Int) > acc.max_x then (x : Int) else acc.max_x
      max_y := if (y : Int) > acc.max_y then (y : Int) else acc.max_y }

/-- Stable insertion for `sortBy`: `a` goes in front of the first element not
strictly below it, so elements comparing equal keep their original order. -/
def insertSorted {α : Type} (lt : α → α → Bool) (a : α) : List α → List α
  | [] => [a]
  | b :: bs => if lt b a then b :: insertSorted lt a bs else a :: b :: bs

/-- Stable sort by a strict comparison.  Python's `sorted` and
`Counter.most_common` are stable sorts, and any two stable sorts of the same
list under the same ordering return the same list, so this is extensionally
the source's sort. -/
def sortBy {α : Type} (lt : α → α → Bool) : List α → List α
  | [] => []
  | a :: as => insertSorted lt a (sortBy lt as)

/-- `Counter.most_common(n)`: entries sorted by descending count, ties kept in
first-insertion order (stable sort), truncated to `n`. -/
def most_common (l : List ((Int × Int × Int) × Nat)) (n : Nat) :
    List ((Int × Int × Int) × Nat) :=
  (sortBy (fun p q => p.2 > q.2) l).take n

/-- `sorted(..., key=lambda x: (-x[1], x[0]))[:10]` over the nonzero
row/column counters. -/
def top_ranked (counts : List Nat) : List (Nat × Nat) :=
  (sortBy (fun p q => p.2 > q.2 || (p.2 == q.2 && p.1 < q.1))
    (counts.enum.filter (fun p => p.2 > 0))).take 10

/-- The `FrameDiffStats` dataclass.  The Python float fields (`pct_diff` and
the per-channel means) are modelled as exact rationals; every property proved
below about them depends only on zero tests, which binary floats decide the
same way. -/
structure FrameDiffStats where
  frame : Nat
  pixels_total : Nat
  pixels_diff : Nat
  pct_diff : ℚ
  mean_abs_r : ℚ
  mean_abs_g : ℚ
  mean_abs_b : ℚ
  max_abs_r : Nat
  max_abs_g : Nat
  max_abs_b : Nat
  bbox : Option (Int × Int × Int × Int)
  top_deltas : List ((Int × Int × Int) × Nat)
  top_rows : List (Nat × Nat)
  top_cols : List (Nat × Nat)
deriving Repr

/-- The loop state of `compute_frame_diff` before the first iteration. -/
def init_acc (width height : Nat) : DiffAcc :=
  { pixels_diff := 0, sum_abs_r := 0, sum_abs_g := 0, sum_abs_b := 0
    max_abs_r := 0, max_abs_g := 0, max_abs_b := 0
    delta_counts := [], row_counts := List.replicate height 0
    col_counts := List.replicate width 0
    min_x := (width : Int), min_y := (height : Int), max_x := -1, max_y := -1 }

/-- The loop of `compute_frame_diff`: fold `diff_step` over the enumerated
zipped pixel streams. -/
def frame_acc (a b : List Nat) (width height : Nat) : DiffAcc :=
  ((iter_pixels a).zip (iter_pixels b)).enum.foldl
    (fun s p => diff_step width s p.1 p.2.1 p.2.2) (init_acc width height)

/-- `compute_frame_diff` from `diff_rgb24_frames.py`. -/
def compute_frame_diff (frame : Nat) (a b : List Nat) (width height : Nat) : FrameDiffStats :=
  let pixels_total := width * height
  let acc := frame_acc a b width height
  let pct_diff : ℚ := if pixels_total = 0 then 0 else (acc.pixels_diff : ℚ) / (pixels_total : ℚ) * 100
  let bbox := if acc.pixels_diff = 0 then none else some (acc.min_x, acc.min_y, acc.max_x, acc.max_y)
  let mean_abs_r : ℚ := if acc.pixels_diff = 0 then 0 else (acc.sum_abs_r : ℚ) / (acc.pixels_diff : ℚ)
  let mean_abs_g : ℚ := if acc.pixels_diff = 0 then 0 else (acc.sum_abs_g : ℚ) / (acc.pixels_diff : ℚ)
  let mean_abs_b : ℚ := if acc.pixels_diff = 0 then 0 else (acc.sum_abs_b : ℚ) / (acc.pixels_diff : ℚ)
  { frame := frame
    pixels_total := pixels_total
    pixels_diff := acc.pixels_diff
    pct_diff := pct_diff
    mean_abs_r := mean_abs_r
    mean_abs_g := mean_abs_g
    mean_abs_b := mean_abs_b
    max_abs_r := acc.max_abs_r
    max_abs_g := acc.max_abs_g
    max_abs_b := acc.max_abs_b
    bbox := bbox
    top_deltas := most_common acc.delta_counts 10
    top_rows := top_ranked acc.row_counts
    top_cols := top_ranked acc.col_counts }

/-- The per-frame loop of `main`, reduced to its observable outcome: each
paired dump is size-validated by `read_rgb24` (a failure aborts, as the
uncaught `ValueError` does), the frame diff is computed and printed, and
after all frames `main` returns `0` unconditionally. -/
def rgb_main (pairs : List (List Nat × List Nat)) (width height : Nat) : Except String Nat :=
  match pairs with
  | [] => .ok 0
  | (a, b) :: rest =>
    match read_rgb24 a (width * height * 3) with
    | .error e => .error e
    | .ok da =>
      match read_rgb24 b (width * height * 3) with
      | .error e => .error e
      | .ok db =>
        let _ := compute_frame_diff 0 da db width height
        rgb_main rest width height

end Rgb24

/-! ## `tools/analyze_mask_diff.py` -/

namespace MaskDiff

/-- The eight bits of one byte, least significant first. -/
def byte_bits (byte : Nat) : List Nat :=
  (List.range 8).map (fun bit => (byte >>> bit) &&& 1)

/-- `unpack_mask`: pixels start as `width*height` zeros; the bit stream of the
input (LSB-first per byte) overwrites the first `min(width*height, 8*len)`
of them, and the `bit_index >= total` guard discards any surplus bits. -/
def unpack_mask (data : List Nat) (width height : Nat) : List Nat :=
  let total := width * height
  let bits := data.flatMap byte_bits
  bits.take total ++ List.replicate (total - bits.length) 0

/-- Observable outcome of `analyze_mask_diff.main`: the exit status, whether
the expected-size warning line was printed, and the comparison's differing
pixel count when the comparison was reached (`none` when `main` returned
before comparing). -/
structure MaskRun where
  status : Nat
  size_warning : Bool
  diff_count : Option Nat
deriving DecidableEq, Repr

/-- `main` from `analyze_mask_diff.py`, reduced to `MaskRun`: unequal file
lengths return `1` before unpacking; a length differing from the stated
geometry only prints a warning; both masks are then unpacked and compared,
and every path that reaches the comparison returns `0`. -/
def analyze_main (data_a data_b : List Nat) (width height : Nat) : MaskRun :=
  if data_a.length ≠ data_b.length then
    { status := 1, size_warning := false, diff_count := none }
  else
    let expected_size := (width * height + 7) / 8
    let warned := data_a.length ≠ expected_size
    let pixels_a := unpack_mask data_a width height
    let pixels_b := unpack_mask data_b width height
    let total := width * height
    let diff_positions := (List.range total).filter
      (fun i => pixels_a.getD i 0 ≠ pixels_b.getD i 0)
    { status := 0, size_warning := warned, diff_count := some diff_positions.length }

end MaskDiff

/-! ## `tools/find_first_palette_index_diff.py` -/

namespace PaletteDiff

/-- The `MESEN_2C02_64` base palette: 64 RGB triples. -/
def MESEN_2C02_64 : List (Nat × Nat × Nat) :=
  [(0x66, 0x66, 0x66), (0x00, 0x2A, 0x88), (0x14, 0x12, 0xA7), (0x3B, 0x00, 0xA4),
   (0x5C, 0x00, 0x7E), (0x6E, 0x00, 0x40), (0x6C, 0x06, 0x00), (0x56, 0x1D, 0x00),
   (0x33, 0x35, 0x00), (0x0B, 0x48, 0x00), (0x00, 0x52, 0x00), (0x00, 0x4F, 0x08),
   (0x00, 0x40, 0x4D), (0x00, 0x00, 0x00), (0x00, 0x00, 0x00), (0x00, 0x00, 0x00),
   (0xAD, 0xAD, 0xAD), (0x15, 0x5F, 0xD9), (0x42, 0x40, 0xFF), (0x75, 0x27, 0xFE),
   (0xA0, 0x1A, 0xCC), (0xB7, 0x1E, 0x7B), (0xB5, 0x31, 0x20), (0x99, 0x4E, 0x00),
   (0x6B, 0x6D, 0x00), (0x38, 0x87, 0x00), (0x0C, 0x93, 0x00), (0x00, 0x8F, 0x32),
   (0x00, 0x7C, 0x8D), (0x00, 0x00, 0x00), (0x00, 0x00, 0x00), (0x00, 0x00, 0x00),
   (0xFF, 0xFE, 0xFF), (0x64, 0xB0, 0xFF), (0x92, 0x90, 0xFF), (0xC6, 0x76, 0xFF),
   (0xF3, 0x6A, 0xFF), (0xFE, 0x6E, 0xCC), (0xFE, 0x81, 0x70), (0xEA, 0x9E, 0x22),
   (0xBC, 0xBE, 0x00), (0x88, 0xD8, 0x00), (0x5C, 0xE4, 0x30), (0x45, 0xE0, 0x82),
   (0x48, 0xCD, 0xDE), (0x4F, 0x4F, 0x4F), (0x00, 0x00, 0x00), (0x00, 0x00, 0x00),
   (0xFF, 0xFE, 0xFF), (0xC0, 0xDF, 0xFF), (0xD3, 0xD2, 0xFF), (0xE8, 0xC8, 0xFF),
   (0xFB, 0xC2, 0xFF), (0xFE, 0xC4, 0xEA), (0xFE, 0xCC, 0xC5), (0xF7, 0xD8, 0xA5),
   (0xE4, 0xE5, 0x94), (0xCF, 0xEF, 0x96), (0xBD, 0xF4, 0xAB), (0xB3, 0xF3, 0xCC),
   (0xB5, 0xEB, 0xF2), (0xB8, 0xB8, 0xB8), (0x00, 0x00, 0x00), (0x00, 0x00, 0x00)]

/-- `MESEN_2C02_64[idx]` (callers only use `idx < 64`). -/
def palette_rgb (idx : Nat) : Nat × Nat × Nat :=
  MESEN_2C02_64.getD idx (0, 0, 0)

/-- One channel value during `apply_emphasis`, as the exact rational
`n / 100 ^ k` (the float chain `c * 0.84 * ...` modelled exactly: each `* 0.84`
multiplies the numerator by 84 and raises the power of 100). -/
def att_mul (p : Nat × Nat) : Nat × Nat :=
  (p.1 * 84, p.2 + 1)

/-- `int(max(0.0, min(255.0, r)))` for the nonnegative channel value
`p.1 / 100 ^ p.2`: truncation toward zero is Nat division, and clamping to
255 commutes with truncation at an integer bound. -/
def clamp_byte (p : Nat × Nat) : Nat :=
  min 255 (p.1 / 100 ^ p.2)

/-- `apply_emphasis`: the 3-bit emphasis mask multiplies two channels per set
bit by 0.84 (compounding), except that mask 0 and "special" indices with low
nibble above 0x0D pass through unchanged.  The float multiplications are
modelled as exact rationals carried as `(numerator, power of 100)` pairs. -/
def apply_emphasis (rgb : Nat × Nat × Nat) (color_index : Nat) (emphasis : Nat) :
    Nat × Nat × Nat :=
  let e := emphasis &&& 0x07
  if e = 0 ∨ (color_index &&& 0x0F) > 0x0D then rgb
  else
    let r : Nat × Nat := (rgb.1, 0)
    let g : Nat × Nat := (rgb.2.1, 0)
    let b : Nat × Nat := (rgb.2.2, 0)
    let g := if e &&& 0x01 ≠ 0 then att_mul g else g
    let b := if e &&& 0x01 ≠ 0 then att_mul b else b
    let r := if e &&& 0x02 ≠ 0 then att_mul r else r
    let b := if e &&& 0x02 ≠ 0 then att_mul b else b
    let r := if e &&& 0x04 ≠ 0 then att_mul r else r
    let g := if e &&& 0x04 ≠ 0 then att_mul g else g
    (clamp_byte r, clamp_byte g, clamp_byte b)

/-- The `(idx, emph)` pairs enumerated by `build_inverse_rgb_map`, in its
iteration order (`idx` major, `emph` minor). -/
def all_idx_emph : List (Nat × Nat) :=
  (List.range 64).flatMap (fun idx => (List.range 8).map (fun emph => (idx, emph)))

/-- `build_inverse_rgb_map`, as a lookup function: the Python dict maps each
RGB key to the list of pairs appended under it in iteration order, which is
exactly the iteration-ordered sublist of pairs producing that RGB; a key
absent from the dict (`inverse.get(rgb)` returning `None`) and an empty list
are both the empty candidate list, which is how `find_first_mismatch` tests
them (`if not candidates`). -/
def build_inverse_rgb_map (rgb : Nat × Nat × Nat) : List (Nat × Nat) :=
  all_idx_emph.filter (fun p => apply_emphasis (palette_rgb p.1) p.1 p.2 == rgb)

/-- `load_rgb24`: size-validated RGB dump (`ValueError` as `Except.error`). -/
def load_rgb24 (data : List Nat) (width height : Nat) : Except String (List Nat) :=
  if data.length = width * height * 3 then .ok data
  else .error "rgb24 plane size mismatch"

/-- `load_plane`: size-validated one-byte-per-pixel plane. -/
def load_plane (data : List Nat) (width height : Nat) : Except String (List Nat) :=
  if data.length = width * height then .ok data
  else .error "plane size mismatch"

/-- The `FirstMismatch` dataclass. -/
structure FirstMismatch where
  frame : Nat
  pixel_index : Nat
  x : Nat
  y : Nat
  mesen_rgb : Nat × Nat × Nat
  candidates : List (Nat × Nat)
  actual_idx : Nat
  actual_emph : Nat
  reason : String
deriving DecidableEq, Repr

/-- Pixel `i` of the RGB24 buffer (`mesen_rgb24[i*3 .. i*3+2]`). -/
def rgb_at (rgb24 : List Nat) (i : Nat) : Nat × Nat × Nat :=
  (rgb24.getD (i * 3) 0, rgb24.getD (i * 3 + 1) 0, rgb24.getD (i * 3 + 2) 0)

/-- Loop body of `find_first_mismatch`.  `remaining` counts the iterations
left of `for i in range(len(nesium_idx))`; `unknown`, `idxm` and `emphm` are
the three running counters.  At a classified mismatch the matching counter is
incremented and the function returns immediately, as in the source. -/
def find_go (frame : Nat) (rgb24 idxs emphs : List Nat)
    (inverse : Nat × Nat × Nat → List (Nat × Nat)) (width : Nat) :
    Nat → Nat → Nat → Nat → Nat → Option FirstMismatch × Nat × Nat × Nat
  | 0, _, unknown, idxm, emphm => (none, unknown, idxm, emphm)
  | remaining + 1, i, unknown, idxm, emphm =>
    let rgb := rgb_at rgb24 i
    let candidates := inverse rgb
    if candidates = [] then
      find_go frame rgb24 idxs emphs inverse width remaining (i + 1) (unknown + 1) idxm emphm
    else
      let actual_idx := idxs.getD i 0 &&& 0x3F
      let actual_emph := emphs.getD i 0 &&& 0x07
      if (actual_idx, actual_emph) ∈ candidates then
        find_go frame rgb24 idxs emphs inverse width remaining (i + 1) unknown idxm emphm
      else if actual_idx ∈ candidates.map Prod.fst then
        (some { frame := frame, pixel_index := i, x := i % width, y := i / width,
                mesen_rgb := rgb, candidates := candidates, actual_idx := actual_idx,
                actual_emph := actual_emph, reason := "emphasis_bits" },
         unknown, idxm, emphm + 1)
      else
        (some { frame := frame, pixel_index := i, x := i % width, y := i / width,
                mesen_rgb := rgb, candidates := candidates, actual_idx := actual_idx,
                actual_emph := actual_emph, reason := "palette_index" },
         unknown, idxm + 1, emphm)

/-- `find_first_mismatch` from `find_first_palette_index_diff.py`. -/
def find_first_mismatch (frame : Nat) (rgb24 idxs emphs : List Nat)
    (inverse : Nat × Nat × Nat → List (Nat × Nat)) (width : Nat) :
    Option FirstMismatch × Nat × Nat × Nat :=
  find_go frame rgb24 idxs emphs inverse width idxs.length 0 0 0 0

/-- Pixel `i` triggers the classified-mismatch return: its RGB has candidates
and the masked `(index, emphasis)` pair is not among them. -/
def is_classified_mismatch (rgb24 idxs emphs : List Nat)
    (inverse : Nat × Nat × Nat → List (Nat × Nat)) (i : Nat) : Prop :=
  inverse (rgb_at rgb24 i) ≠ [] ∧
    (idxs.getD i 0 &&& 0x3F, emphs.getD i 0 &&& 0x07) ∉ inverse (rgb_at rgb24 i)

instance (rgb24 idxs emphs : List Nat) (inverse : Nat × Nat × Nat → List (Nat × Nat))
    (i : Nat) : Decidable (is_classified_mismatch rgb24 idxs emphs inverse i) :=
  instDecidableAnd

/-- Number of unknown-color pixels (no candidates at all) among the `r`
pixels starting at index `i`. -/
def count_unknown (rgb24 : List Nat) (inverse : Nat × Nat × Nat → List (Nat × Nat)) :
    Nat → Nat → Nat
  | _, 0 => 0
  | i, r + 1 =>
    (if inverse (rgb_at rgb24 i) = [] then 1 else 0) + count_unknown rgb24 inverse (i + 1) r

/-- The record `find_first_mismatch` returns for a classified mismatch at
pixel `k`. -/
def mismatch_record (frame : Nat) (rgb24 idxs emphs : List Nat)
    (inverse : Nat × Nat × Nat → List (Nat × Nat)) (width k : Nat) : FirstMismatch :=
  let rgb := rgb_at rgb24 k
  let cands := inverse rgb
  let ai := idxs.getD k 0 &&& 0x3F
  let ae := emphs.getD k 0 &&& 0x07
  { frame := frame, pixel_index := k, x := k % width, y := k / width, mesen_rgb := rgb,
    candidates := cands, actual_idx := ai, actual_emph := ae,
    reason := if ai ∈ cands.map Prod.fst then "emphasis_bits" else "palette_index" }

/-- The per-frame loop of `find_first_palette_index_diff.main` over the loaded
`(rgb24, idx8, emph8)` byte triples: each plane is size-validated (a failure
aborts, as the uncaught `ValueError` does), `found_any` records whether any
frame produced a mismatch, and the final status is `1 if found_any else 0`.
The frame number only labels the printed report, so it is passed as 0. -/
def palette_main_go (inverse : Nat × Nat × Nat → List (Nat × Nat)) (width height : Nat) :
    List (List Nat × List Nat × List Nat) → Bool → Except String Nat
  | [], found_any => .ok (if found_any then 1 else 0)
  | (rgb, idxs, emphs) :: rest, found_any =>
    match load_rgb24 rgb width height with
    | .error e => .error e
    | .ok mesen_rgb24 =>
      match load_plane idxs width height with
      | .error e => .error e
      | .ok nesium_idx =>
        match load_plane emphs width height with
        | .error e => .error e
        | .ok nesium_emph =>
          let result :=
            find_first_mismatch 0 mesen_rgb24 nesium_idx nesium_emph inverse width
          palette_main_go inverse width height rest (found_any || result.1.isSome)

/-- Exit status of `find_first_palette_index_diff.main` over the loaded
frames, with the reverse map built once as in the source. -/
def palette_main_status (frames : List (List Nat × List Nat × List Nat))
    (width height : Nat) : Except String Nat :=
  palette_main_go build_inverse_rgb_map width height frames false

end PaletteDiff

/-! ## Helper lemmas -/

theorem byte_bits_length (byte : Nat) : (MaskDiff.byte_bits byte).length = 8 := by
  simp [MaskDiff.byte_bits]

theorem flat_bits_length (data : List Nat) :
    (data.flatMap MaskDiff.byte_bits).length = 8 * data.length := by
  induction data with
  | nil => simp
  | cons byte rest ih =>
    simp only [List.flatMap_cons, List.length_append, byte_bits_length, ih, List.length_cons]
    omega

theorem byte_bits_getD (byte i : Nat) (h : i < 8) :
    (MaskDiff.byte_bits byte).getD i 0 = (byte >>> i) &&& 1 := by
  simp [MaskDiff.byte_bits, List.getD_eq_getElem?_getD, List.getElem?_map,
    List.getElem?_range h]

theorem flat_bits_getD (data : List Nat) (i : Nat) (h : i < 8 * data.length) :
    (data.flatMap MaskDiff.byte_bits).getD i 0 = (data.getD (i / 8) 0 >>> (i % 8)) &&& 1 := by
  induction data generalizing i with
  | nil => simp at h
  | cons byte rest ih =>
    rw [List.flatMap_cons]
    by_cases hi : i < 8
    · rw [List.getD_append _ _ _ _ (by rw [byte_bits_length]; exact hi)]
      rw [byte_bits_getD byte i hi, Nat.div_eq_of_lt hi, Nat.mod_eq_of_lt hi,
        List.getD_cons_zero]
    · obtain ⟨j, rfl⟩ : ∃ j, i = j + 8 := ⟨i - 8, by omega⟩
      rw [List.getD_append_right _ _ _ _ (by rw [byte_bits_length]; omega)]
      rw [byte_bits_length]
      have hj : j < 8 * rest.length := by simp [List.length_cons] at h; omega
      rw [Nat.add_sub_cancel, ih j hj, Nat.add_div_right j (by omega),
        Nat.add_mod_right, List.getD_cons_succ]

/-- Sample event: the spec scenario's `PPUREG` write of `3F` to `2006`. -/
def sample_write_3F : PpuReg.Event :=
  { raw := "PPUREG|src=x|ev=write|cpu_cycle=10|frame=0|scanline=0|dot=0|addr=2006|value=3F"
    src := "x", ev := "write", cpu_cycle := 10, frame := 0, scanline := 0, dot := 0,
    addr := 0x2006, value := 0x3F, v := -1, t := -1, x := -1 }

/-- Sample event: identical to `sample_write_3F` except `value = 3E`. -/
def sample_write_3E : PpuReg.Event :=
  { sample_write_3F with
    raw := "PPUREG|src=x|ev=write|cpu_cycle=10|frame=0|scanline=0|dot=0|addr=2006|value=3E"
    value := 0x3E }

theorem any_field_eq_false {a b : PpuReg.Event} {fields : List PpuReg.Field}
    (h : ∀ f ∈ fields, PpuReg.event_field_value a f = PpuReg.event_field_value b f) :
    (fields.any fun f => PpuReg.event_field_value a f != PpuReg.event_field_value b f) = false := by
  rw [List.any_eq_false]
  intro f hf
  simp [h f hf]

theorem any_field_eq_true {a b : PpuReg.Event} {fields : List PpuReg.Field}
    (h : ∃ f ∈ fields, PpuReg.event_field_value a f ≠ PpuReg.event_field_value b f) :
    (fields.any fun f => PpuReg.event_field_value a f != PpuReg.event_field_value b f) = true := by
  rw [List.any_eq_true]
  obtain ⟨f, hf, hne⟩ := h
  exact ⟨f, hf, by simpa using hne⟩

theorem diffAt_cons_succ {x y : PpuReg.Event} {xs ys : List PpuReg.Event}
    {fields : List PpuReg.Field} {j : Nat} :
    PpuReg.DiffAt (x :: xs) (y :: ys) fields (j + 1) ↔ PpuReg.DiffAt xs ys fields j := by
  unfold PpuReg.DiffAt
  rw [List.getD_cons_succ, List.getD_cons_succ]

theorem diffAt_cons_zero {x y : PpuReg.Event} {xs ys : List PpuReg.Event}
    {fields : List PpuReg.Field} :
    PpuReg.DiffAt (x :: xs) (y :: ys) fields 0 ↔
      ∃ f ∈ fields, PpuReg.event_field_value x f ≠ PpuReg.event_field_value y f := by
  unfold PpuReg.DiffAt
  rw [List.getD_cons_zero, List.getD_cons_zero]

/-- Full agreement on the common prefix with equal lengths: the loop returns
the no-mismatch sentinel. -/
theorem first_mismatch_go_agree (fields : List PpuReg.Field) :
    ∀ (xs ys : List PpuReg.Event) (i : Nat), xs.length = ys.length →
      (∀ j, j < xs.length → ¬ PpuReg.DiffAt xs ys fields j) →
      PpuReg.first_mismatch_go fields xs ys i = (-1, none, none) := by
  intro xs
  induction xs with
  | nil =>
    intro ys i hlen _
    cases ys with
    | nil => rfl
    | cons y ys => simp at hlen
  | cons x xs ih =>
    intro ys i hlen hno
    cases ys with
    | nil => simp at hlen
    | cons y ys =>
      have h0 : ¬ PpuReg.DiffAt (x :: xs) (y :: ys) fields 0 := hno 0 (by simp)
      rw [diffAt_cons_zero] at h0
      push_neg at h0
      rw [PpuReg.first_mismatch_go, if_neg (by rw [any_field_eq_false h0]; simp)]
      exact ih ys (i + 1) (by simpa using hlen)
        (fun j hj => fun hd => hno (j + 1) (by simpa using hj) (diffAt_cons_succ.mpr hd))

/-- A selected-field disagreement at `k`, none before it: the loop started at
offset `i` returns index `i + k` with both events present. -/
theorem first_mismatch_go_first_diff (fields : List PpuReg.Field) :
    ∀ (k : Nat) (xs ys : List PpuReg.Event) (i : Nat),
      k < xs.length → k < ys.length → PpuReg.DiffAt xs ys fields k →
      (∀ j, j < k → ¬ PpuReg.DiffAt xs ys fields j) →
      PpuReg.first_mismatch_go fields xs ys i = (((i + k : Nat) : Int), xs[k]?, ys[k]?) := by
  intro k
  induction k with
  | zero =>
    intro xs ys i hx hy hd _
    cases xs with
    | nil => simp at hx
    | cons x xs =>
      cases ys with
      | nil => simp at hy
      | cons y ys =>
        rw [diffAt_cons_zero] at hd
        rw [PpuReg.first_mismatch_go, if_pos (by rw [any_field_eq_true hd])]
        simp
  | succ k ih =>
    intro xs ys i hx hy hd hno
    cases xs with
    | nil => simp at hx
    | cons x xs =>
      cases ys with
      | nil => simp at hy
      | cons y ys =>
        have h0 : ¬ PpuReg.DiffAt (x :: xs) (y :: ys) fields 0 := hno 0 (by omega)
        rw [diffAt_cons_zero] at h0
        push_neg at h0
        rw [PpuReg.first_mismatch_go, if_neg (by rw [any_field_eq_false h0]; simp)]
        have := ih xs ys (i + 1) (by simpa using hx) (by simpa using hy)
          (diffAt_cons_succ.mp hd)
          (fun j hj => fun hdj => hno (j + 1) (by omega) (diffAt_cons_succ.mpr hdj))
        rw [this, List.getElem?_cons_succ, List.getElem?_cons_succ]
        simp only [Prod.mk.injEq, and_true]
        omega

/-- Agreement on the common prefix but different lengths: the loop started at
offset `i` reports index `i + min`, the exhausted side `none`. -/
theorem first_mismatch_go_len (fields : List PpuReg.Field) :
    ∀ (xs ys : List PpuReg.Event) (i : Nat),
      (∀ j, j < min xs.length ys.length → ¬ PpuReg.DiffAt xs ys fields j) →
      xs.length ≠ ys.length →
      PpuReg.first_mismatch_go fields xs ys i =
        (((i + min xs.length ys.length : Nat) : Int),
          xs[min xs.length ys.length]?, ys[min xs.length ys.length]?) := by
  intro xs
  induction xs with
  | nil =>
    intro ys i _ hne
    cases ys with
    | nil => simp at hne
    | cons y ys => simp [PpuReg.first_mismatch_go]
  | cons x xs ih =>
    intro ys i hno hne
    cases ys with
    | nil => simp [PpuReg.first_mismatch_go]
    | cons y ys =>
      have h0 : ¬ PpuReg.DiffAt (x :: xs) (y :: ys) fields 0 := hno 0 (by simp)
      rw [diffAt_cons_zero] at h0
      push_neg at h0
      rw [PpuReg.first_mismatch_go, if_neg (by rw [any_field_eq_false h0]; simp)]
      have := ih ys (i + 1)
        (fun j hj => fun hd => hno (j + 1) (by simp; omega) (diffAt_cons_succ.mpr hd))
        (by simpa using hne)
      rw [this]
      simp only [List.length_cons, Nat.succ_min_succ, List.getElem?_cons_succ]
      simp only [Prod.mk.injEq, and_true]
      omega

/-- The NMI `compare_events` returns 1 when the common prefix agrees on
`key_of` but the lengths differ. -/
theorem nmi_compare_events_len :
    ∀ (m n : List NmiTrace.TraceEvent),
      (∀ j, j < min m.length n.length →
        NmiTrace.key_of (m.getD j default) = NmiTrace.key_of (n.getD j default)) →
      m.length ≠ n.length → NmiTrace.compare_events m n = 1 := by
  intro m
  induction m with
  | nil =>
    intro n _ hne
    cases n with
    | nil => simp at hne
    | cons y ys => rfl
  | cons x xs ih =>
    intro n heq hne
    cases n with
    | nil => rfl
    | cons y ys =>
      have h0 := heq 0 (by simp)
      simp only [List.getD_cons_zero] at h0
      rw [NmiTrace.compare_events, if_neg (by simpa using h0)]
      exact ih ys
        (fun j hj => by
          have := heq (j + 1) (by simp at hj ⊢; omega)
          simpa using this)
        (by simpa using hne)

/-- The APU `compare_events` exits 0 exactly on full agreement: equal lengths
and equal `(ev, addr, value)` keys at every shared position. -/
theorem apu_compare_events_eq_zero_iff (m n : List ApuTrace.TraceEvent) :
    ApuTrace.compare_events m n = 0 ↔
      (m.length = n.length ∧ ∀ j, j < m.length →
        ApuTrace.apu_key (m.getD j default) = ApuTrace.apu_key (n.getD j default)) := by
  induction m generalizing n with
  | nil =>
    cases n with
    | nil => simp [ApuTrace.compare_events]
    | cons y ys => simp [ApuTrace.compare_events]
  | cons x xs ih =>
    cases n with
    | nil => simp [ApuTrace.compare_events]
    | cons y ys =>
      rw [ApuTrace.compare_events]
      by_cases hk : ApuTrace.apu_key x = ApuTrace.apu_key y
      · rw [if_neg (not_not_intro hk), ih ys]
        constructor
        · rintro ⟨hl, hall⟩
          refine ⟨by simp [hl], ?_⟩
          intro j hj
          cases j with
          | zero => simpa using hk
          | succ j => simpa using hall j (by simpa using hj)
        · rintro ⟨hl, hall⟩
          refine ⟨by simpa using hl, ?_⟩
          intro j hj
          simpa using hall (j + 1) (by simp only [List.length_cons]; omega)
      · rw [if_pos hk]
        refine iff_of_false (by omega) ?_
        rintro ⟨-, hall⟩
        exact hk (by simpa using hall 0 (by simp))

/-- `find_go` over a window containing no classified mismatch returns no
record, adds the window's unknown-color count, and leaves the mismatch
counters unchanged. -/
theorem find_go_none (frame : Nat) (rgb24 idxs emphs : List Nat)
    (inverse : Nat × Nat × Nat → List (Nat × Nat)) (width : Nat) :
    ∀ (r i u im em : Nat),
      (∀ j, i ≤ j → j < i + r →
        ¬ PaletteDiff.is_classified_mismatch rgb24 idxs emphs inverse j) →
      PaletteDiff.find_go frame rgb24 idxs emphs inverse width r i u im em =
        (none, u + PaletteDiff.count_unknown rgb24 inverse i r, im, em) := by
  intro r
  induction r with
  | zero =>
    intro i u im em _
    simp [PaletteDiff.find_go, PaletteDiff.count_unknown]
  | succ r ih =>
    intro i u im em hno
    rw [PaletteDiff.find_go]
    by_cases hc : inverse (PaletteDiff.rgb_at rgb24 i) = []
    · simp only [hc, if_true]
      rw [ih (i + 1) (u + 1) im em
        (fun j h1 h2 => hno j (by omega) (by omega))]
      rw [PaletteDiff.count_unknown, if_pos hc]
      have harith : u + 1 + PaletteDiff.count_unknown rgb24 inverse (i + 1) r =
          u + (1 + PaletteDiff.count_unknown rgb24 inverse (i + 1) r) := by omega
      rw [harith]
    · have hni := hno i (le_refl i) (by omega)
      unfold PaletteDiff.is_classified_mismatch at hni
      push_neg at hni
      have hmem := hni hc
      simp only [if_neg hc]
      rw [if_pos hmem]
      rw [ih (i + 1) u im em
        (fun j h1 h2 => hno j (by omega) (by omega))]
      rw [PaletteDiff.count_unknown, if_neg hc]
      simp

/-- `find_go` with the first classified mismatch at `k` inside the window
returns the mismatch record for `k`, the unknown-color count strictly before
`k`, and bumps exactly the counter matching the classification. -/
theorem find_go_first (frame : Nat) (rgb24 idxs emphs : List Nat)
    (inverse : Nat × Nat × Nat → List (Nat × Nat)) (width : Nat) :
    ∀ (r i u im em k : Nat), i ≤ k → k < i + r →
      PaletteDiff.is_classified_mismatch rgb24 idxs emphs inverse k →
      (∀ j, i ≤ j → j < k →
        ¬ PaletteDiff.is_classified_mismatch rgb24 idxs emphs inverse j) →
      PaletteDiff.find_go frame rgb24 idxs emphs inverse width r i u im em =
        (some (PaletteDiff.mismatch_record frame rgb24 idxs emphs inverse width k),
         u + PaletteDiff.count_unknown rgb24 inverse i (k - i),
         im + (if (idxs.getD k 0 &&& 0x3F) ∈
            (inverse (PaletteDiff.rgb_at rgb24 k)).map Prod.fst then 0 else 1),
         em + (if (idxs.getD k 0 &&& 0x3F) ∈
            (inverse (PaletteDiff.rgb_at rgb24 k)).map Prod.fst then 1 else 0)) := by
  intro r
  induction r with
  | zero =>
    intro i u im em k h1 h2 _ _
    omega
  | succ r ih =>
    intro i u im em k h1 h2 hk hno
    rw [PaletteDiff.find_go]
    rcases Nat.eq_or_lt_of_le h1 with hik | hik
    · subst hik
      obtain ⟨hc, hnm⟩ := hk
      simp only [if_neg hc]
      rw [if_neg hnm]
      by_cases hidx : (idxs.getD i 0 &&& 0x3F) ∈
          (inverse (PaletteDiff.rgb_at rgb24 i)).map Prod.fst
      · rw [if_pos hidx]
        unfold PaletteDiff.mismatch_record
        simp only [hidx, if_pos rfl]
        rw [Nat.sub_self, PaletteDiff.count_unknown]
        simp [if_pos hidx]
      · rw [if_neg hidx]
        unfold PaletteDiff.mismatch_record
        simp only [hidx, if_neg]
        rw [Nat.sub_self, PaletteDiff.count_unknown]
        simp [if_neg hidx]
    · have hnoi := hno i (le_refl i) hik
      unfold PaletteDiff.is_classified_mismatch at hnoi
      push_neg at hnoi
      by_cases hc : inverse (PaletteDiff.rgb_at rgb24 i) = []
      · simp only [hc, if_true]
        rw [ih (i + 1) (u + 1) im em k (by omega) (by omega) hk
          (fun j ha hb => hno j (by omega) hb)]
        have hki : k - i = (k - (i + 1)) + 1 := by omega
        rw [hki, PaletteDiff.count_unknown, if_pos hc]
        have harith : u + 1 + PaletteDiff.count_unknown rgb24 inverse (i + 1) (k - (i + 1)) =
            u + (1 + PaletteDiff.count_unknown rgb24 inverse (i + 1) (k - (i + 1))) := by omega
        rw [harith]
      · have hmem := hnoi hc
        simp only [if_neg hc]
        rw [if_pos hmem]
        rw [ih (i + 1) u im em k (by omega) (by omega) hk
          (fun j ha hb => hno j (by omega) hb)]
        have hki : k - i = (k - (i + 1)) + 1 := by omega
        rw [hki, PaletteDiff.count_unknown, if_neg hc]
        simp

theorem char_toNat_ofNat_small (m : Nat) (h : m < 55296) : (Char.ofNat m).toNat = m := by
  have hv : m.isValidChar := Or.inl h
  rw [Char.ofNat, dif_pos hv]
  simp [Char.ofNatAux, Char.toNat, UInt32.toNat]

theorem toLowerChar_toNat (c : Char) :
    (toLowerChar c).toNat = if 65 ≤ c.toNat ∧ c.toNat ≤ 90 then c.toNat + 32 else c.toNat := by
  unfold toLowerChar
  by_cases h : 65 ≤ c.toNat ∧ c.toNat ≤ 90
  · rw [if_pos h, if_pos h, char_toNat_ofNat_small _ (by omega)]
  · rw [if_neg h, if_neg h]

theorem isSpaceChar_toLowerChar (c : Char) : isSpaceChar (toLowerChar c) = isSpaceChar c := by
  simp only [isSpaceChar, toLowerChar_toNat]
  split
  · next h =>
    rw [Bool.eq_iff_iff]
    simp only [Bool.or_eq_true, beq_iff_eq]
    omega
  · rfl

theorem toLowerChar_idem (c : Char) : toLowerChar (toLowerChar c) = toLowerChar c := by
  unfold toLowerChar
  by_cases h : 65 ≤ c.toNat ∧ c.toNat ≤ 90
  · rw [if_pos h, if_neg ?_]
    intro hc
    rw [char_toNat_ofNat_small _ (by omega)] at hc
    omega
  · rw [if_neg h, if_neg h]

theorem digitVal_hexDigitChar : ∀ d, d < 16 → digitValBase? 16 (hexDigitChar d) = some d := by
  decide

theorem digitVal_lower_hexDigitChar :
    ∀ d, d < 16 → digitValBase? 16 (toLowerChar (hexDigitChar d)) = some d := by
  decide

theorem hexDigitChar_not_space : ∀ d, d < 16 → isSpaceChar (hexDigitChar d) = false := by
  decide

theorem lower_hexDigitChar_not_space :
    ∀ d, d < 16 → isSpaceChar (toLowerChar (hexDigitChar d)) = false := by
  decide

theorem lower_hexDigitChar_ne_x :
    ∀ d, d < 16 → toLowerChar (hexDigitChar d) ≠ 'x' ∧ toLowerChar (hexDigitChar d) ≠ 'X' := by
  decide

theorem zero_eq_hexDigitChar : '0' = hexDigitChar 0 := by decide

theorem toHexAux_digits : ∀ (fuel n : Nat), ∀ c ∈ toHexAux fuel n, ∃ d, d < 16 ∧ c = hexDigitChar d := by
  intro fuel
  induction fuel with
  | zero =>
    intro n c hc
    simp [toHexAux] at hc
  | succ fuel ih =>
    intro n c hc
    rw [toHexAux] at hc
    by_cases hn : n = 0
    · rw [if_pos hn] at hc
      simp at hc
    · rw [if_neg hn] at hc
      rcases List.mem_append.mp hc with h | h
      · exact ih _ _ h
      · simp only [List.mem_singleton] at h
        exact ⟨n % 16, Nat.mod_lt _ (by omega), h⟩

theorem parseNatAux_append (base : Nat) : ∀ (cs ds : List Char) (acc : Nat),
    parseNatAux base (cs ++ ds) acc =
      match parseNatAux base cs acc with
      | none => none
      | some a => parseNatAux base ds a := by
  intro cs
  induction cs with
  | nil => intro ds acc; rfl
  | cons c cs ih =>
    intro ds acc
    simp only [List.cons_append, parseNatAux]
    cases digitValBase? base c with
    | none => rfl
    | some d => exact ih ds (base * acc + d)

theorem parseNatAux_toHexAux : ∀ (fuel n : Nat), n ≤ fuel →
    parseNatAux 16 (toHexAux fuel n) 0 = some n := by
  intro fuel
  induction fuel with
  | zero =>
    intro n hn
    have : n = 0 := by omega
    subst this
    rfl
  | succ fuel ih =>
    intro n hn
    rw [toHexAux]
    by_cases hn0 : n = 0
    · rw [if_pos hn0, hn0]
      rfl
    · rw [if_neg hn0, parseNatAux_append]
      rw [ih (n / 16) (by
        have := Nat.div_lt_self (show 0 < n by omega) (show (1 : Nat) < 16 by omega)
        omega)]
      simp only [parseNatAux, digitVal_hexDigitChar (n % 16) (Nat.mod_lt _ (by omega))]
      rw [Nat.div_add_mod]

theorem parseNatAux_map_lower : ∀ (cs : List Char) (acc : Nat),
    (∀ c ∈ cs, ∃ d, d < 16 ∧ c = hexDigitChar d) →
    parseNatAux 16 (cs.map toLowerChar) acc = parseNatAux 16 cs acc := by
  intro cs
  induction cs with
  | nil => intro acc _; rfl
  | cons c cs ih =>
    intro acc hall
    obtain ⟨d, hd, rfl⟩ := hall c (List.mem_cons_self c cs)
    simp only [List.map_cons, parseNatAux,
      digitVal_lower_hexDigitChar d hd, digitVal_hexDigitChar d hd]
    exact ih _ (fun c hc => hall c (List.mem_cons_of_mem _ hc))

theorem parseNatAux_replicate_zero : ∀ (k : Nat) (cs : List Char),
    parseNatAux 16 (List.replicate k '0' ++ cs) 0 = parseNatAux 16 cs 0 := by
  intro k
  induction k with
  | zero => intro cs; rfl
  | succ k ih =>
    intro cs
    rw [List.replicate_succ, List.cons_append]
    simp only [parseNatAux, show digitValBase? 16 '0' = some 0 from by decide]
    simpa using ih cs

theorem dropWhile_eq_self_of_false {p : Char → Bool} :
    ∀ (cs : List Char), (∀ c ∈ cs, p c = false) → cs.dropWhile p = cs := by
  intro cs h
  cases cs with
  | nil => rfl
  | cons c cs =>
    rw [List.dropWhile_cons, h c (List.mem_cons_self c cs)]
    simp

theorem stripChars_eq_self (cs : List Char) (h : ∀ c ∈ cs, isSpaceChar c = false) :
    stripChars cs = cs := by
  unfold stripChars
  rw [dropWhile_eq_self_of_false cs h,
    dropWhile_eq_self_of_false _ (fun c hc => h c (List.mem_reverse.mp hc)),
    List.reverse_reverse]

theorem stripChars_map_lower (cs : List Char) :
    stripChars (cs.map toLowerChar) = (stripChars cs).map toLowerChar := by
  have hp : (isSpaceChar ∘ toLowerChar) = isSpaceChar := funext isSpaceChar_toLowerChar
  unfold stripChars
  rw [List.dropWhile_map, hp, ← List.map_reverse, List.dropWhile_map, hp, ← List.map_reverse]

theorem natHexRepr_digits (n : Nat) :
    ∀ c ∈ natHexRepr n, ∃ d, d < 16 ∧ c = hexDigitChar d := by
  intro c hc
  unfold natHexRepr at hc
  split at hc
  · simp only [List.mem_singleton] at hc
    exact ⟨0, by omega, by rw [hc]; exact zero_eq_hexDigitChar⟩
  · exact toHexAux_digits _ _ c hc

theorem padLeftZeros_digits (w n : Nat) :
    ∀ c ∈ padLeftZeros w (natHexRepr n), ∃ d, d < 16 ∧ c = hexDigitChar d := by
  intro c hc
  rcases List.mem_append.mp hc with h | h
  · rw [List.eq_of_mem_replicate h]
    exact ⟨0, by omega, zero_eq_hexDigitChar⟩
  · exact natHexRepr_digits n c h

theorem parse_natHexRepr (n : Nat) : parseNatAux 16 (natHexRepr n) 0 = some n := by
  unfold natHexRepr
  split
  · next h => rw [h]; rfl
  · exact parseNatAux_toHexAux (n + 1) n (by omega)

theorem natHexRepr_ne_nil (n : Nat) : natHexRepr n ≠ [] := by
  unfold natHexRepr
  split
  · simp
  · next h =>
    rw [toHexAux]
    rw [if_neg h]
    simp

theorem toHexAux_length_le : ∀ (fuel n w : Nat), n ≤ fuel → n < 16 ^ w →
    (toHexAux fuel n).length ≤ w := by
  intro fuel
  induction fuel with
  | zero =>
    intro n w hn _
    have : n = 0 := by omega
    subst this
    simp [toHexAux]
  | succ fuel ih =>
    intro n w hn hw
    rw [toHexAux]
    by_cases hn0 : n = 0
    · rw [if_pos hn0]
      simp
    · rw [if_neg hn0]
      cases w with
      | zero =>
        simp at hw
        omega
      | succ w =>
        rw [List.length_append, List.length_singleton]
        have hdiv : n / 16 < 16 ^ w := by
          rw [Nat.div_lt_iff_lt_mul (by omega)]
          calc n < 16 ^ (w + 1) := hw
          _ = 16 ^ w * 16 := by rw [pow_succ]
        have hle : n / 16 ≤ fuel := by
          have := Nat.div_lt_self (show 0 < n by omega) (show (1 : Nat) < 16 by omega)
          omega
        have := ih (n / 16) w hle hdiv
        omega

theorem toHexAux_length_ge : ∀ (fuel n w : Nat), n ≤ fuel → 16 ^ w ≤ n →
    w < (toHexAux fuel n).length := by
  intro fuel
  induction fuel with
  | zero =>
    intro n w hn hw
    have : n = 0 := by omega
    subst this
    have : (0 : Nat) < 16 ^ w := Nat.pos_pow_of_pos w (by omega)
    omega
  | succ fuel ih =>
    intro n w hn hw
    have hn0 : n ≠ 0 := by
      intro h
      subst h
      have : (0 : Nat) < 16 ^ w := Nat.pos_pow_of_pos w (by omega)
      omega
    rw [toHexAux, if_neg hn0, List.length_append, List.length_singleton]
    cases w with
    | zero => omega
    | succ w =>
      have hdiv : 16 ^ w ≤ n / 16 := by
        rw [Nat.le_div_iff_mul_le (by omega)]
        calc 16 ^ w * 16 = 16 ^ (w + 1) := by rw [pow_succ]
        _ ≤ n := hw
      have hle : n / 16 ≤ fuel := by
        have := Nat.div_lt_self (show 0 < n by omega) (show (1 : Nat) < 16 by omega)
        omega
      have := ih (n / 16) w hle hdiv
      omega

theorem padLeftZeros_length (w : Nat) (cs : List Char) :
    (padLeftZeros w cs).length = max w cs.length := by
  unfold padLeftZeros
  rw [List.length_append, List.length_replicate]
  omega

theorem take_two_ne_0x {cs : List Char} (h : ∀ c ∈ cs, c ≠ 'x') : cs.take 2 ≠ ['0', 'x'] := by
  intro heq
  have hx : 'x' ∈ cs.take 2 := by
    rw [heq]
    simp
  exact h 'x' (List.take_subset 2 cs hx) rfl

theorem take_two_ne_0X {cs : List Char} (h : ∀ c ∈ cs, c ≠ 'X') : cs.take 2 ≠ ['0', 'X'] := by
  intro heq
  have hx : 'X' ∈ cs.take 2 := by
    rw [heq]
    simp
  exact h 'X' (List.take_subset 2 cs hx) rfl

theorem map_lower_digits_mem {L : List Char} (hdig : ∀ c ∈ L, ∃ d, d < 16 ∧ c = hexDigitChar d) :
    ∀ c ∈ L.map toLowerChar, ∃ d, d < 16 ∧ c = toLowerChar (hexDigitChar d) := by
  intro c hc
  obtain ⟨c0, hc0, rfl⟩ := List.mem_map.mp hc
  obtain ⟨d, hd, rfl⟩ := hdig c0 hc0
  exact ⟨d, hd, rfl⟩

theorem hex_body_of_digits (L : List Char)
    (hdig : ∀ c ∈ L, ∃ d, d < 16 ∧ c = hexDigitChar d) :
    hex_body (String.mk L) = L.map toLowerChar := by
  unfold hex_body
  show (let v := (stripChars L).map toLowerChar
    if v.take 2 = ['0', 'x'] then v.drop 2 else v) = L.map toLowerChar
  rw [stripChars_eq_self L (fun c hc => by
    obtain ⟨d, hd, rfl⟩ := hdig c hc
    exact hexDigitChar_not_space d hd)]
  have hnx : ∀ c ∈ L.map toLowerChar, c ≠ 'x' := by
    intro c hc
    obtain ⟨d, hd, rfl⟩ := map_lower_digits_mem hdig c hc
    exact (lower_hexDigitChar_ne_x d hd).1
  exact if_neg (take_two_ne_0x hnx)

theorem parseNatBase?_ne_nil (base : Nat) (cs : List Char) (h : cs ≠ []) :
    parseNatBase? base cs = parseNatAux base cs 0 := by
  cases cs with
  | nil => exact absurd rfl h
  | cons c cs' => rfl

theorem parseIntBase?_of_lower_digits (L : List Char) (hne : L ≠ [])
    (hdig : ∀ c ∈ L, ∃ d, d < 16 ∧ c = hexDigitChar d) :
    parseIntBase? 16 (String.mk (L.map toLowerChar)) = parseNatAux 16 L 0 := by
  have hmem := map_lower_digits_mem hdig
  have hnospace : ∀ c ∈ L.map toLowerChar, isSpaceChar c = false := by
    intro c hc
    obtain ⟨d, hd, rfl⟩ := hmem c hc
    exact lower_hexDigitChar_not_space d hd
  have hnx : ∀ c ∈ L.map toLowerChar, c ≠ 'x' := fun c hc => by
    obtain ⟨d, hd, rfl⟩ := hmem c hc
    exact (lower_hexDigitChar_ne_x d hd).1
  have hnX : ∀ c ∈ L.map toLowerChar, c ≠ 'X' := fun c hc => by
    obtain ⟨d, hd, rfl⟩ := hmem c hc
    exact (lower_hexDigitChar_ne_x d hd).2
  have hmapne : L.map toLowerChar ≠ [] := by
    simpa using hne
  have hstrip : stripChars ((String.mk (L.map toLowerChar)).data) = L.map toLowerChar :=
    stripChars_eq_self _ hnospace
  unfold parseIntBase?
  rw [hstrip]
  show parseNatBase? 16
      (if 16 = 16 ∧ ((L.map toLowerChar).take 2 = ['0', 'x'] ∨
          (L.map toLowerChar).take 2 = ['0', 'X'])
       then (L.map toLowerChar).drop 2 else L.map toLowerChar) = parseNatAux 16 L 0
  rw [if_neg (by
    rintro ⟨-, h | h⟩
    · exact take_two_ne_0x hnx h
    · exact take_two_ne_0X hnX h)]
  rw [parseNatBase?_ne_nil 16 _ hmapne]
  exact parseNatAux_map_lower L 0 hdig

theorem parse_padLeftZeros (width n : Nat) :
    parseNatAux 16 (padLeftZeros width (natHexRepr n)) 0 = some n := by
  unfold padLeftZeros
  rw [parseNatAux_replicate_zero]
  exact parse_natHexRepr n

theorem padLeftZeros_ne_nil (width n : Nat) : padLeftZeros width (natHexRepr n) ≠ [] := by
  unfold padLeftZeros
  intro h
  rcases List.append_eq_nil.mp h with ⟨-, h2⟩
  exact natHexRepr_ne_nil n h2

/-- `normalize_hex` output strings are fixed points of `normalize_hex`. -/
theorem normalize_hex_fixed (n width : Nat) :
    normalize_hex (String.mk (padLeftZeros width (natHexRepr n))) width =
      .ok (String.mk (padLeftZeros width (natHexRepr n))) := by
  have hdig := padLeftZeros_digits width n
  have hbody := hex_body_of_digits (padLeftZeros width (natHexRepr n)) hdig
  have hne := padLeftZeros_ne_nil width n
  have hmapne : (padLeftZeros width (natHexRepr n)).map toLowerChar ≠ [] := by
    simpa using hne
  have hparse : parseIntBase? 16
      (String.mk ((padLeftZeros width (natHexRepr n)).map toLowerChar)) = some n := by
    rw [parseIntBase?_of_lower_digits _ hne hdig]
    exact parse_padLeftZeros width n
  unfold normalize_hex
  rw [hbody]
  rw [if_neg hmapne, hparse]

/-- With a positive width, the all-zeros string is the padded form of 0. -/
theorem replicate_zero_eq_pad (width : Nat) (h : 0 < width) :
    List.replicate width '0' = padLeftZeros width (natHexRepr 0) := by
  unfold padLeftZeros natHexRepr
  rw [if_pos rfl]
  obtain ⟨w, rfl⟩ : ∃ w, width = w + 1 := ⟨width - 1, by omega⟩
  rw [List.replicate_succ']
  simp

theorem hex_body_map_lower (value : String) :
    hex_body (String.mk (value.data.map toLowerChar)) = hex_body value := by
  have hmm : ((String.mk (value.data.map toLowerChar)).data) = value.data.map toLowerChar := rfl
  unfold hex_body
  rw [hmm, stripChars_map_lower, List.map_map,
    show toLowerChar ∘ toLowerChar = toLowerChar from funext toLowerChar_idem]

/-- The NMI `compare_events` exits 0 exactly on full agreement: equal lengths
and equal `key_of` triples at every shared position. -/
theorem nmi_compare_events_eq_zero_iff (m n : List NmiTrace.TraceEvent) :
    NmiTrace.compare_events m n = 0 ↔
      (m.length = n.length ∧ ∀ j, j < m.length →
        NmiTrace.key_of (m.getD j default) = NmiTrace.key_of (n.getD j default)) := by
  induction m generalizing n with
  | nil =>
    cases n with
    | nil => simp [NmiTrace.compare_events]
    | cons y ys => simp [NmiTrace.compare_events]
  | cons x xs ih =>
    cases n with
    | nil => simp [NmiTrace.compare_events]
    | cons y ys =>
      rw [NmiTrace.compare_events]
      by_cases hk : NmiTrace.key_of x = NmiTrace.key_of y
      · rw [if_neg (not_not_intro hk), ih ys]
        constructor
        · rintro ⟨hl, hall⟩
          refine ⟨by simp [hl], ?_⟩
          intro j hj
          cases j with
          | zero => simpa using hk
          | succ j => simpa using hall j (by simpa using hj)
        · rintro ⟨hl, hall⟩
          refine ⟨by simpa using hl, ?_⟩
          intro j hj
          simpa using hall (j + 1) (by simp only [List.length_cons]; omega)
      · rw [if_pos hk]
        refine iff_of_false (by omega) ?_
        rintro ⟨-, hall⟩
        exact hk (by simpa using hall 0 (by simp))

/-- The index `first_mismatch` returns is either the `-1` sentinel or a
natural position. -/
theorem first_mismatch_go_sign (fields : List PpuReg.Field) :
    ∀ (xs ys : List PpuReg.Event) (i : Nat),
      (PpuReg.first_mismatch_go fields xs ys i).1 = -1 ∨
        ∃ m : Nat, (PpuReg.first_mismatch_go fields xs ys i).1 = (m : Int) := by
  intro xs
  induction xs with
  | nil =>
    intro ys i
    cases ys with
    | nil => left; rfl
    | cons y ys => right; exact ⟨i, rfl⟩
  | cons x xs ih =>
    intro ys i
    cases ys with
    | nil => right; exact ⟨i, rfl⟩
    | cons y ys =>
      rw [PpuReg.first_mismatch_go]
      split
      · right; exact ⟨i, rfl⟩
      · exact ih ys (i + 1)

/-- `first_mismatch` reports the `-1` sentinel exactly on full agreement:
equal lengths and no selected-field disagreement at any shared position. -/
theorem first_mismatch_eq_neg_one_iff (a b : List PpuReg.Event) (fields : List PpuReg.Field) :
    (PpuReg.first_mismatch a b fields).1 = -1 ↔
      (a.length = b.length ∧ ∀ j, j < a.length → ¬ PpuReg.DiffAt a b fields j) := by
  constructor
  · intro h
    by_contra hc
    rw [not_and_or] at hc
    by_cases hd : ∃ j, j < min a.length b.length ∧ PpuReg.DiffAt a b fields j
    · have hk := Nat.find_spec hd
      have hfirst := first_mismatch_go_first_diff fields (Nat.find hd) a b 0
        (by omega) (by omega) hk.2
        (fun j hj => fun hdj => Nat.find_min hd hj ⟨by omega, hdj⟩)
      rw [PpuReg.first_mismatch, hfirst] at h
      simp at h
    · push_neg at hd
      have hnd : ∀ j, j < min a.length b.length → ¬ PpuReg.DiffAt a b fields j :=
        fun j hj => hd j hj
      have hlen : a.length ≠ b.length := by
        intro heq
        rcases hc with hlen | hdiff
        · exact hlen heq
        · push_neg at hdiff
          obtain ⟨j, hj, hdj⟩ := hdiff
          exact hnd j (by omega) hdj
      have hgo := first_mismatch_go_len fields a b 0 hnd hlen
      rw [PpuReg.first_mismatch, hgo] at h
      simp at h
      omega
  · rintro ⟨hl, hnd⟩
    rw [PpuReg.first_mismatch, first_mismatch_go_agree fields a b 0 hl hnd]

/-- The per-frame loop of the palette tool, characterized: with size-valid
planes it succeeds, and the status is 1 exactly when some frame (or the
incoming `found_any` flag) has a classified first mismatch. -/
theorem palette_main_go_spec (width height : Nat) :
    ∀ (frames : List (List Nat × List Nat × List Nat)) (found_any : Bool),
      (∀ f ∈ frames, f.1.length = width * height * 3 ∧
        f.2.1.length = width * height ∧ f.2.2.length = width * height) →
      PaletteDiff.palette_main_go PaletteDiff.build_inverse_rgb_map width height
          frames found_any =
        .ok (if found_any || frames.any (fun f =>
            (PaletteDiff.find_first_mismatch 0 f.1 f.2.1 f.2.2
              PaletteDiff.build_inverse_rgb_map width).1.isSome)
          then 1 else 0) := by
  intro frames
  induction frames with
  | nil =>
    intro found_any _
    simp [PaletteDiff.palette_main_go]
  | cons f rest ih =>
    intro found_any hall
    have hf := hall f (List.mem_cons_self f rest)
    obtain ⟨g, idxs, emphs⟩ := f
    simp only at hf
    rw [PaletteDiff.palette_main_go, PaletteDiff.load_rgb24, if_pos hf.1,
      PaletteDiff.load_plane, if_pos hf.2.1, PaletteDiff.load_plane, if_pos hf.2.2]
    show PaletteDiff.palette_main_go PaletteDiff.build_inverse_rgb_map width height rest
        (found_any || (PaletteDiff.find_first_mismatch 0 g idxs emphs
          PaletteDiff.build_inverse_rgb_map width).1.isSome) =
      Except.ok (if (found_any || ((g, idxs, emphs) :: rest).any (fun f =>
          (PaletteDiff.find_first_mismatch 0 f.1 f.2.1 f.2.2
            PaletteDiff.build_inverse_rgb_map width).1.isSome)) then 1 else 0)
    rw [ih _ (fun q hq => hall q (List.mem_cons_of_mem _ hq))]
    simp only [List.any_cons]
    rw [Bool.or_assoc]

/-! ## Claims -/

/-- **C1.** The divergence locator `first_mismatch` returns the least index
`i < min(len a, len b)` at which some selected field differs (with both events
at that index), reports no mismatch (`(-1, none, none)`) for equal-length
sequences whose common prefix agrees on every selected field — hence for any
two identical sequences regardless of the field set — and therefore returns
`k` for sequences equal except one selected field at `k`, and no mismatch
when the only differing field is excluded from the selection. -/
theorem C1_first_mismatch_least_index (a b : List PpuReg.Event) (fields : List PpuReg.Field) :
    (a = b → PpuReg.first_mismatch a b fields = (-1, none, none)) ∧
    (a.length = b.length → (∀ j, j < a.length → ¬ PpuReg.DiffAt a b fields j) →
      PpuReg.first_mismatch a b fields = (-1, none, none)) ∧
    (∀ k, k < min a.length b.length → PpuReg.DiffAt a b fields k →
      (∀ j, j < k → ¬ PpuReg.DiffAt a b fields j) →
      PpuReg.first_mismatch a b fields = ((k : Int), a[k]?, b[k]?)) := by
  refine ⟨?_, ?_, ?_⟩
  · intro hab
    subst hab
    exact first_mismatch_go_agree fields a a 0 rfl
      (fun j _ => fun hd => by
        obtain ⟨f, _, hne⟩ := hd
        exact hne rfl)
  · intro hlen hno
    exact first_mismatch_go_agree fields a b 0 hlen hno
  · intro k hk hd hno
    have := first_mismatch_go_first_diff fields k a b 0
      (by omega) (by omega) hd hno
    simpa using this

/-- Witness for C1: the spec's scenario — traces identical except `value`
(`3F` vs `3E`) at index 0, compared on `addr,value`, mismatch at index 0. -/
theorem C1_first_mismatch_least_index_witness :
    PpuReg.first_mismatch [sample_write_3F] [sample_write_3E] [PpuReg.Field.addr, PpuReg.Field.value] =
      (0, some sample_write_3F, some sample_write_3E) := by
  have h := (C1_first_mismatch_least_index [sample_write_3F] [sample_write_3E]
    [PpuReg.Field.addr, PpuReg.Field.value]).2.2 0 (by decide) (by decide)
    (fun j hj => absurd hj (by omega))
  simpa using h

/-- **C2.** When the common prefix agrees on the selected fields but the
lengths differ, `first_mismatch` reports the divergence exactly at
`min(len a, len b)`, showing the longer sequence's event there and the
exhausted (shorter) side as the past-tail sentinel `none`; the NMI trace
comparator likewise reports a divergence (exit code 1) in this situation. -/
theorem C2_length_mismatch_reported (a b : List PpuReg.Event) (fields : List PpuReg.Field)
    (m n : List NmiTrace.TraceEvent) :
    (a.length < b.length → (∀ j, j < min a.length b.length → ¬ PpuReg.DiffAt a b fields j) →
      PpuReg.first_mismatch a b fields =
        ((a.length : Int), none, some (b.getD a.length default))) ∧
    (b.length < a.length → (∀ j, j < min a.length b.length → ¬ PpuReg.DiffAt a b fields j) →
      PpuReg.first_mismatch a b fields =
        ((b.length : Int), some (a.getD b.length default), none)) ∧
    ((∀ j, j < min m.length n.length →
        NmiTrace.key_of (m.getD j default) = NmiTrace.key_of (n.getD j default)) →
      m.length ≠ n.length → NmiTrace.compare_events m n = 1) := by
  refine ⟨?_, ?_, nmi_compare_events_len m n⟩
  · intro hlt hno
    have hmin : min a.length b.length = a.length := by omega
    have := first_mismatch_go_len fields a b 0 hno (by omega)
    rw [hmin] at this
    rw [PpuReg.first_mismatch, this]
    simp only [Prod.mk.injEq]
    refine ⟨by omega, by simp, ?_⟩
    rw [List.getElem?_eq_getElem hlt, List.getD_eq_getElem?_getD,
      List.getElem?_eq_getElem hlt]
    rfl
  · intro hlt hno
    have hmin : min a.length b.length = b.length := by omega
    have := first_mismatch_go_len fields a b 0 hno (by omega)
    rw [hmin] at this
    rw [PpuReg.first_mismatch, this]
    simp only [Prod.mk.injEq]
    refine ⟨by omega, ?_, by simp⟩
    rw [List.getElem?_eq_getElem hlt, List.getD_eq_getElem?_getD,
      List.getElem?_eq_getElem hlt]
    rfl

/-- Witness for C2: `[e]` vs `[e, e']` with an agreeing prefix reports the
divergence at index 1 with the shorter side `none`. -/
theorem C2_length_mismatch_reported_witness :
    PpuReg.first_mismatch [sample_write_3F] [sample_write_3F, sample_write_3E]
      [PpuReg.Field.addr, PpuReg.Field.value] = (1, none, some sample_write_3E) := by
  have h := (C2_length_mismatch_reported [sample_write_3F] [sample_write_3F, sample_write_3E]
    [PpuReg.Field.addr, PpuReg.Field.value] [] []).1 (by decide) (by decide)
  simpa using h

/-- **C3 (counterexample).** The claim says every tool exits non-zero when at
least one pixel differs.  `analyze_mask_diff.main` on the one-byte masks `[1]`
and `[0]` (8×1 geometry) finds one differing pixel yet returns exit status 0:
its only non-zero exit is the a/b length mismatch. -/
theorem C3_exit_status_counterexample :
    (MaskDiff.analyze_main [1] [0] 8 1).status = 0 ∧
    (MaskDiff.analyze_main [1] [0] 8 1).diff_count = some 1 := by decide

/-- **C3 (amended).** Exit statuses as the code computes them.  The claim
holds for the comparison tools: the PPU register comparator's `main`, the
APU and NMI `compare_events`, and `find_first_palette_index_diff.main` (over
size-validated inputs) all exit 0 exactly on full agreement and 1 exactly
when a divergence or classified mismatch is found, with size-malformed
inputs aborting through the loaders.  Only the two statistics tools are
carved out: the mask analyzer exits 0 whenever the two files have equal byte
length (even when pixels differ) and 1 only on a length mismatch, and
`diff_rgb24_frames.main` returns 0 whenever every paired dump passes size
validation, regardless of how many pixels differ. -/
theorem C3_exit_status_amended :
    (∀ (da db : List Nat) (w h : Nat),
      (MaskDiff.analyze_main da db w h).status = if da.length = db.length then 0 else 1) ∧
    (∀ (pairs : List (List Nat × List Nat)) (w h : Nat),
      (∀ p ∈ pairs, p.1.length = w * h * 3 ∧ p.2.length = w * h * 3) →
      Rgb24.rgb_main pairs w h = .ok 0) ∧
    (∀ (a b : List PpuReg.Event) (fields : List PpuReg.Field),
      PpuReg.ppu_main_status a b fields = 0 ↔
        (a.length = b.length ∧ ∀ j, j < a.length → ¬ PpuReg.DiffAt a b fields j)) ∧
    (∀ (m n : List ApuTrace.TraceEvent),
      ApuTrace.compare_events m n = 0 ↔
        (m.length = n.length ∧ ∀ j, j < m.length →
          ApuTrace.apu_key (m.getD j default) = ApuTrace.apu_key (n.getD j default))) ∧
    (∀ (m n : List NmiTrace.TraceEvent),
      NmiTrace.compare_events m n = 0 ↔
        (m.length = n.length ∧ ∀ j, j < m.length →
          NmiTrace.key_of (m.getD j default) = NmiTrace.key_of (n.getD j default))) ∧
    (∀ (frames : List (List Nat × List Nat × List Nat)) (w h : Nat),
      (∀ f ∈ frames, f.1.length = w * h * 3 ∧
        f.2.1.length = w * h ∧ f.2.2.length = w * h) →
      PaletteDiff.palette_main_status frames w h =
        .ok (if frames.any (fun f =>
            (PaletteDiff.find_first_mismatch 0 f.1 f.2.1 f.2.2
              PaletteDiff.build_inverse_rgb_map w).1.isSome)
          then 1 else 0)) := by
  refine ⟨?_, ?_, ?_, apu_compare_events_eq_zero_iff, nmi_compare_events_eq_zero_iff, ?_⟩
  · intro da db w h
    by_cases hl : da.length = db.length
    · simp [MaskDiff.analyze_main, hl]
    · simp [MaskDiff.analyze_main, hl]
  · intro pairs w h
    induction pairs with
    | nil => intro _; rfl
    | cons p rest ih =>
      intro hall
      have hp := hall p (List.mem_cons_self p rest)
      cases p with
      | mk a b =>
        simp only at hp
        rw [Rgb24.rgb_main, Rgb24.read_rgb24, if_pos hp.1, Rgb24.read_rgb24, if_pos hp.2]
        exact ih (fun q hq => hall q (List.mem_cons_of_mem _ hq))
  · intro a b fields
    unfold PpuReg.ppu_main_status
    by_cases hlt : (PpuReg.first_mismatch a b fields).1 < 0
    · rw [if_pos hlt]
      have h1 : (PpuReg.first_mismatch a b fields).1 = -1 := by
        rcases first_mismatch_go_sign fields a b 0 with hs | ⟨m, hm⟩
        · exact hs
        · have hm2 : (PpuReg.first_mismatch a b fields).1 = (m : Int) := hm
          omega
      exact iff_of_true rfl ((first_mismatch_eq_neg_one_iff a b fields).mp h1)
    · rw [if_neg hlt]
      refine iff_of_false (by omega) ?_
      intro hag
      apply hlt
      rw [(first_mismatch_eq_neg_one_iff a b fields).mpr hag]
      omega
  · intro frames w h hall
    unfold PaletteDiff.palette_main_status
    simpa using palette_main_go_spec w h frames false hall

/-- Witness for the amended C3: two 1×1 rgb24 frames differing in every
channel still give exit status 0 once size validation passes, while the
palette tool exits 1 on a 1×1 frame whose only pixel is a mismatch. -/
theorem C3_exit_status_amended_witness :
    Rgb24.rgb_main [([0, 0, 0], [9, 9, 9])] 1 1 = .ok 0 ∧
    PaletteDiff.palette_main_status [([0, 0, 0], [0], [0])] 1 1 = .ok 1 := by
  refine ⟨C3_exit_status_amended.2.1 [([0, 0, 0], [9, 9, 9])] 1 1 (by decide), ?_⟩
  have h := C3_exit_status_amended.2.2.2.2.2 [([0, 0, 0], [0], [0])] 1 1 (by decide)
  have hif : (if ([([0, 0, 0], [0], [0])] : List (List Nat × List Nat × List Nat)).any
      (fun f => (PaletteDiff.find_first_mismatch 0 f.1 f.2.1 f.2.2
        PaletteDiff.build_inverse_rgb_map 1).1.isSome) then (1 : Nat) else 0) = 1 := by
    decide
  rw [hif] at h
  exact h

/-- **C5 (counterexample).** The claim says a 1bpp mask whose byte length
differs from the expected geometry size makes the tool abort with a non-zero
status before any comparison.  Two equal one-byte masks under an 8×2 geometry
(expected size 2) only set the warning flag, run the comparison, and exit 0. -/
theorem C5_size_mismatch_counterexample :
    (MaskDiff.analyze_main [0] [0] 8 2).size_warning = true ∧
    (MaskDiff.analyze_main [0] [0] 8 2).status = 0 ∧
    (MaskDiff.analyze_main [0] [0] 8 2).diff_count = some 0 := by decide

/-- **C5 (amended).** The rgb24 and idx8/emph8 loaders are fatal on any
geometry mismatch — they return the buffer exactly when the byte length
matches the expected size, and an error otherwise, before any comparison.
The 1bpp mask tool is fatal only on differing a/b lengths: with equal
lengths it always reaches the comparison and exits 0, emitting at most a
warning about the expected geometry. -/
theorem C5_size_mismatch_amended :
    (∀ (data : List Nat) (expected : Nat),
      Rgb24.read_rgb24 data expected = .ok data ↔ data.length = expected) ∧
    (∀ (data : List Nat) (w h : Nat),
      PaletteDiff.load_rgb24 data w h = .ok data ↔ data.length = w * h * 3) ∧
    (∀ (data : List Nat) (w h : Nat),
      PaletteDiff.load_plane data w h = .ok data ↔ data.length = w * h) ∧
    (∀ (da db : List Nat) (w h : Nat), da.length = db.length →
      (MaskDiff.analyze_main da db w h).status = 0 ∧
      (MaskDiff.analyze_main da db w h).diff_count ≠ none) := by
  refine ⟨?_, ?_, ?_, ?_⟩
  · intro data expected
    unfold Rgb24.read_rgb24
    split
    · next hc => simp [hc]
    · next hc => simp [hc]
  · intro data w h
    unfold PaletteDiff.load_rgb24
    split
    · next hc => simp [hc]
    · next hc => simp [hc]
  · intro data w h
    unfold PaletteDiff.load_plane
    split
    · next hc => simp [hc]
    · next hc => simp [hc]
  · intro da db w h hl
    constructor
    · simp [MaskDiff.analyze_main, hl]
    · simp [MaskDiff.analyze_main, hl]

/-- Witness for the amended C5: the mask tool with equal-length inputs
proceeds to the comparison and exits 0. -/
theorem C5_size_mismatch_amended_witness :
    (MaskDiff.analyze_main [7] [7] 8 1).status = 0 ∧
    (MaskDiff.analyze_main [7] [7] 8 1).diff_count ≠ none :=
  C5_size_mismatch_amended.2.2.2 [7] [7] 8 1 rfl

/-- **C4 (counterexample).** The claim says the three counters returned with
the first mismatch count only pixels strictly before it.  On a one-pixel
frame whose first (and only) pixel is a `palette_index` mismatch — black RGB,
reported index 0, which explains no black candidate — there are no pixels
before the mismatch, yet the returned index-mismatch counter is 1: the code
increments the classification counter for the mismatch pixel itself before
returning. -/
theorem C4_counters_counterexample :
    (PaletteDiff.find_first_mismatch 0 [0, 0, 0] [0] [0]
      PaletteDiff.build_inverse_rgb_map 8).2.2.1 = 1 ∧
    (PaletteDiff.find_first_mismatch 0 [0, 0, 0] [0] [0]
      PaletteDiff.build_inverse_rgb_map 8).1.map PaletteDiff.FirstMismatch.pixel_index =
      some 0 ∧
    (PaletteDiff.find_first_mismatch 0 [0, 0, 0] [0] [0]
      PaletteDiff.build_inverse_rgb_map 8).1.map PaletteDiff.FirstMismatch.reason =
      some "palette_index" := by decide

/-- **C4 (amended).** `find_first_mismatch` scans pixels in row-major order
against the reverse map: with no classified mismatch it returns `none`, the
total unknown-color count, and zero mismatch counters; with a first
classified mismatch at pixel `k` (candidates exist, masked pair not among
them) it returns the mismatch record for `k` — classified `palette_index`
when the masked index is in no candidate, `emphasis_bits` when it is — the
unknown-color count over the pixels strictly before `k`, and mismatch
counters that include the mismatch pixel itself: the counter for its
classification is 1, the other 0. -/
theorem C4_first_palette_mismatch (frame : Nat) (rgb24 idxs emphs : List Nat) (width : Nat) :
    ((∀ j, j < idxs.length →
        ¬ PaletteDiff.is_classified_mismatch rgb24 idxs emphs
          PaletteDiff.build_inverse_rgb_map j) →
      PaletteDiff.find_first_mismatch frame rgb24 idxs emphs
          PaletteDiff.build_inverse_rgb_map width =
        (none, PaletteDiff.count_unknown rgb24 PaletteDiff.build_inverse_rgb_map 0 idxs.length,
         0, 0)) ∧
    (∀ k, k < idxs.length →
      PaletteDiff.is_classified_mismatch rgb24 idxs emphs PaletteDiff.build_inverse_rgb_map k →
      (∀ j, j < k →
        ¬ PaletteDiff.is_classified_mismatch rgb24 idxs emphs
          PaletteDiff.build_inverse_rgb_map j) →
      PaletteDiff.find_first_mismatch frame rgb24 idxs emphs
          PaletteDiff.build_inverse_rgb_map width =
        (some (PaletteDiff.mismatch_record frame rgb24 idxs emphs
            PaletteDiff.build_inverse_rgb_map width k),
         PaletteDiff.count_unknown rgb24 PaletteDiff.build_inverse_rgb_map 0 k,
         (if (idxs.getD k 0 &&& 0x3F) ∈
            (PaletteDiff.build_inverse_rgb_map (PaletteDiff.rgb_at rgb24 k)).map Prod.fst
          then 0 else 1),
         (if (idxs.getD k 0 &&& 0x3F) ∈
            (PaletteDiff.build_inverse_rgb_map (PaletteDiff.rgb_at rgb24 k)).map Prod.fst
          then 1 else 0))) := by
  constructor
  · intro hno
    have h := find_go_none frame rgb24 idxs emphs PaletteDiff.build_inverse_rgb_map width
      idxs.length 0 0 0 0 (fun j h1 h2 => hno j (by omega))
    simpa using h
  · intro k hk hmis hno
    have h := find_go_first frame rgb24 idxs emphs PaletteDiff.build_inverse_rgb_map width
      idxs.length 0 0 0 0 k (by omega) (by omega) hmis
      (fun j h1 h2 => hno j h2)
    simpa using h

/-- Witness for the amended C4: a one-pixel frame with black RGB explained by
`(idx, emph) = (13, 0)` — no mismatch, no unknown colors, zero counters. -/
theorem C4_first_palette_mismatch_witness :
    PaletteDiff.find_first_mismatch 0 [0, 0, 0] [13] [0]
      PaletteDiff.build_inverse_rgb_map 8 = (none, 0, 0, 0) := by
  have h := (C4_first_palette_mismatch 0 [0, 0, 0] [13] [0] 8).1 (by decide)
  have hc : PaletteDiff.count_unknown [0, 0, 0] PaletteDiff.build_inverse_rgb_map 0
      ([13] : List Nat).length = 0 := by decide
  rw [hc] at h
  exact h

/-- **C6 (counterexample).** The claim says a malformed hex field never
aborts the parse in any trace pipeline.  In the APU pipeline the
`ValueError` from `int("zz", 16)` inside `normalize_hex` is uncaught, so
`parse_events` on a single line with `addr=zz` aborts with the error instead
of completing with a sentineled field. -/
theorem C6_malformed_hex_counterexample :
    ApuTrace.parse_events ["APUTRACE|ev=write|addr=zz|value=00"] false =
      Except.error "invalid hex: zz" := by decide

/-- **C6 (amended).** Only the PPU register pipeline recovers from malformed
hex: `parse_line.get_int` returns the sentinel `-1` when the field is absent
or unparsable, and line parsing always completes.  In the APU and NMI
pipelines (which share a verbatim copy of `normalize_hex`), a nonempty
malformed hex field makes `normalize_hex` fail, and the failure propagates
out of `parse_events`, aborting the whole parse. -/
theorem C6_malformed_hex_amended :
    (∀ (fields : List (String × String)) (name : String) (base : Nat),
      dictGet fields name = none → PpuReg.get_int fields name base = -1) ∧
    (∀ (fields : List (String × String)) (name v : String) (base : Nat),
      dictGet fields name = some v → parseIntBase? base v = none →
      PpuReg.get_int fields name base = -1) ∧
    (∀ (value : String) (width : Nat),
      hex_body value ≠ [] → parseIntBase? 16 (String.mk (hex_body value)) = none →
      normalize_hex value width = .error ("invalid hex: " ++ value)) := by
  refine ⟨?_, ?_, ?_⟩
  · intro fields name base h
    unfold PpuReg.get_int
    rw [h]
  · intro fields name v base h hp
    unfold PpuReg.get_int
    rw [h]
    simp only []
    rw [hp]
  · intro value width hne hp
    simp only [normalize_hex]
    rw [if_neg hne, hp]

/-- One `diff_step` either skips (equal pixel) or increments `pixels_diff`. -/
theorem diff_step_cases (width : Nat) (acc : Rgb24.DiffAcc) (i : Nat) (pa pb : Nat × Nat × Nat) :
    Rgb24.diff_step width acc i pa pb = acc ∨
    (Rgb24.diff_step width acc i pa pb).pixels_diff = acc.pixels_diff + 1 := by
  by_cases hc : ((pb.1 : Int) - (pa.1 : Int) = 0 ∧ (pb.2.1 : Int) - (pa.2.1 : Int) = 0 ∧
      (pb.2.2 : Int) - (pa.2.2 : Int) = 0)
  · left
    simp [Rgb24.diff_step, hc]
  · right
    simp [Rgb24.diff_step, hc]

/-- `pixels_diff` never decreases along the fold. -/
theorem fold_pd_mono (width : Nat)
    (l : List (Nat × ((Nat × Nat × Nat) × (Nat × Nat × Nat)))) :
    ∀ acc : Rgb24.DiffAcc,
      acc.pixels_diff ≤
        (l.foldl (fun s p => Rgb24.diff_step width s p.1 p.2.1 p.2.2) acc).pixels_diff := by
  induction l with
  | nil => intro acc; simp
  | cons p l ih =>
    intro acc
    rw [List.foldl_cons]
    refine le_trans ?_ (ih (Rgb24.diff_step width acc p.1 p.2.1 p.2.2))
    rcases diff_step_cases width acc p.1 p.2.1 p.2.2 with h | h
    · rw [h]
    · omega

/-- If the fold ends with `pixels_diff = 0`, every step skipped and the
state is exactly the initial one. -/
theorem fold_pd_zero (width : Nat)
    (l : List (Nat × ((Nat × Nat × Nat) × (Nat × Nat × Nat)))) :
    ∀ acc : Rgb24.DiffAcc,
      (l.foldl (fun s p => Rgb24.diff_step width s p.1 p.2.1 p.2.2) acc).pixels_diff = 0 →
      l.foldl (fun s p => Rgb24.diff_step width s p.1 p.2.1 p.2.2) acc = acc := by
  induction l with
  | nil => intro acc _; rfl
  | cons p l ih =>
    intro acc h
    rw [List.foldl_cons] at h ⊢
    rcases diff_step_cases width acc p.1 p.2.1 p.2.2 with hs | hs
    · rw [hs] at h ⊢
      exact ih acc h
    · exfalso
      have := fold_pd_mono width l (Rgb24.diff_step width acc p.1 p.2.1 p.2.2)
      omega

/-- Witness for the amended C6: `get_int` sentinels `addr=zz` to `-1`, while
the APU/NMI `normalize_hex` turns the same field into an aborting error. -/
theorem C6_malformed_hex_amended_witness :
    PpuReg.get_int [("addr", "zz")] "addr" 16 = -1 ∧
    normalize_hex "zz" 4 = .error ("invalid hex: " ++ "zz") :=
  ⟨C6_malformed_hex_amended.2.1 [("addr", "zz")] "addr" "zz" 16 (by decide) (by decide),
   C6_malformed_hex_amended.2.2 "zz" 4 (by decide) (by decide)⟩

/-- **C7.** Reverse palette map round-trip: for every base color index in
0..63 and every 3-bit emphasis mask in 0..7, the pair `(index, emphasis)` is
present in the reverse map's candidate list for the RGB triple produced by
applying the emphasis attenuation to that index's base palette RGB. -/
theorem C7_reverse_map_round_trip (idx emph : Nat) (hidx : idx < 64) (hemph : emph < 8) :
    (idx, emph) ∈ PaletteDiff.build_inverse_rgb_map
      (PaletteDiff.apply_emphasis (PaletteDiff.palette_rgb idx) idx emph) := by
  unfold PaletteDiff.build_inverse_rgb_map
  refine List.mem_filter.mpr ⟨?_, ?_⟩
  · unfold PaletteDiff.all_idx_emph
    refine List.mem_flatMap.mpr ⟨idx, List.mem_range.mpr hidx, ?_⟩
    exact List.mem_map.mpr ⟨emph, List.mem_range.mpr hemph, rfl⟩
  · simp

/-- Witness for C7 at `(idx, emph) = (0, 0)`. -/
theorem C7_reverse_map_round_trip_witness :
    (0, 0) ∈ PaletteDiff.build_inverse_rgb_map
      (PaletteDiff.apply_emphasis (PaletteDiff.palette_rgb 0) 0 0) :=
  C7_reverse_map_round_trip 0 0 (by decide) (by decide)

/-- **C8 (counterexample).** The claim says normalization produces a hex
string of exactly the requested field-specific width.  A well-formed
five-digit input normalized to width 4 keeps all five digits: Python's
`"%04X"` pads to a minimum width but never truncates. -/
theorem C8_width_counterexample :
    normalize_hex "abcde" 4 = .ok "ABCDE" ∧ ("ABCDE" : String).data.length ≠ 4 := by
  decide

/-- **C8 (amended).** Hex normalization maps the empty string to `width`
zeros, tolerates an optional `0x` prefix, and formats every well-formed input
as upper-case hex digits zero-padded to *at least* the requested width —
exactly the requested width whenever the value fits in `width` digits
(`n < 16 ^ width`, `width > 0`), and wider otherwise.  It is idempotent on
every produced output, case-insensitive on well-formed inputs, and normalizes
`"0x1A"`, `"1a"` and `"001A"` at width 4 to `"001A"`. -/
theorem C8_hex_normalization (value out : String) (width n : Nat) :
    (normalize_hex "" width = .ok (String.mk (List.replicate width '0'))) ∧
    (parseIntBase? 16 (String.mk (hex_body value)) = some n →
      normalize_hex value width = .ok (String.mk (padLeftZeros width (natHexRepr n))) ∧
      (padLeftZeros width (natHexRepr n)).length = max width (natHexRepr n).length ∧
      (0 < width → n < 16 ^ width → (padLeftZeros width (natHexRepr n)).length = width) ∧
      (16 ^ width ≤ n → width < (padLeftZeros width (natHexRepr n)).length) ∧
      (∀ c ∈ padLeftZeros width (natHexRepr n), ∃ d, d < 16 ∧ c = hexDigitChar d)) ∧
    (normalize_hex value width = .ok out → normalize_hex out width = .ok out) ∧
    ((hex_body value = [] ∨ ∃ m, parseIntBase? 16 (String.mk (hex_body value)) = some m) →
      normalize_hex (String.mk (value.data.map toLowerChar)) width =
        normalize_hex value width) ∧
    (normalize_hex "0x1A" 4 = .ok "001A" ∧ normalize_hex "1a" 4 = .ok "001A" ∧
      normalize_hex "001A" 4 = .ok "001A") := by
  refine ⟨rfl, ?_, ?_, ?_, by decide, by decide, by decide⟩
  · intro hp
    have hbne : hex_body value ≠ [] := by
      intro h
      rw [h, show parseIntBase? 16 (String.mk []) = none from rfl] at hp
      exact Option.noConfusion hp
    refine ⟨?_, padLeftZeros_length width _, ?_, ?_, padLeftZeros_digits width n⟩
    · simp only [normalize_hex]
      rw [if_neg hbne, hp]
    · intro hwpos hlt
      rw [padLeftZeros_length]
      have hle : (natHexRepr n).length ≤ width := by
        unfold natHexRepr
        split
        · simpa using hwpos
        · exact toHexAux_length_le (n + 1) n width (by omega) hlt
      omega
    · intro hge
      rw [padLeftZeros_length]
      have hlt : width < (natHexRepr n).length := by
        have hn0 : n ≠ 0 := by
          intro h
          subst h
          have : (0 : Nat) < 16 ^ width := Nat.pos_pow_of_pos _ (by omega)
          omega
        unfold natHexRepr
        rw [if_neg hn0]
        exact toHexAux_length_ge (n + 1) n width (by omega) hge
      omega
  · intro hnorm
    simp only [normalize_hex] at hnorm
    by_cases hb : hex_body value = []
    · rw [if_pos hb] at hnorm
      have hout : String.mk (List.replicate width '0') = out := Except.ok.inj hnorm
      subst hout
      cases width with
      | zero => rfl
      | succ w =>
        rw [show String.mk (List.replicate (w + 1) '0') =
            String.mk (padLeftZeros (w + 1) (natHexRepr 0)) from
          congrArg _ (replicate_zero_eq_pad (w + 1) (by omega))]
        exact normalize_hex_fixed 0 (w + 1)
    · rw [if_neg hb] at hnorm
      cases hpe : parseIntBase? 16 (String.mk (hex_body value)) with
      | none =>
        rw [hpe] at hnorm
        have : (Except.error ("invalid hex: " ++ value) : Except String String) = .ok out :=
          hnorm
        exact Except.noConfusion this
      | some m =>
        rw [hpe] at hnorm
        have hnorm2 : (Except.ok (String.mk (padLeftZeros width (natHexRepr m))) :
            Except String String) = .ok out := hnorm
        have hout : String.mk (padLeftZeros width (natHexRepr m)) = out :=
          Except.ok.inj hnorm2
        subst hout
        exact normalize_hex_fixed m width
  · intro hwf
    rcases hwf with hb | ⟨m, hm⟩
    · simp [normalize_hex, hex_body_map_lower, hb]
    · have hbne : hex_body value ≠ [] := by
        intro h
        rw [h, show parseIntBase? 16 (String.mk []) = none from rfl] at hm
        exact Option.noConfusion hm
      simp only [normalize_hex, hex_body_map_lower, hm]

/-- Witness for the amended C8: idempotence applied to the concrete run
`normalize_hex "1a" 4 = ok "001A"` re-normalizes the output unchanged. -/
theorem C8_hex_normalization_witness : normalize_hex "001A" 4 = .ok "001A" :=
  (C8_hex_normalization "1a" "001A" 4 26).2.2.1 (by decide)

/-- **C9.** For every pair of frame buffers, `pixels_diff = 0` holds if and
only if `bbox` is absent and all per-channel mean and max absolute deltas are
exactly zero; and `bbox` is absent exactly when `pixels_diff = 0` (so any
positive `pixels_diff` comes with a bounding box).  Stated for all buffer
pairs, which includes the equal-sized pairs the claim quantifies over. -/
theorem C9_zero_diff_iff_no_bbox (frame : Nat) (a b : List Nat) (w h : Nat) :
    ((Rgb24.compute_frame_diff frame a b w h).pixels_diff = 0 ↔
      ((Rgb24.compute_frame_diff frame a b w h).bbox = none ∧
       (Rgb24.compute_frame_diff frame a b w h).mean_abs_r = 0 ∧
       (Rgb24.compute_frame_diff frame a b w h).mean_abs_g = 0 ∧
       (Rgb24.compute_frame_diff frame a b w h).mean_abs_b = 0 ∧
       (Rgb24.compute_frame_diff frame a b w h).max_abs_r = 0 ∧
       (Rgb24.compute_frame_diff frame a b w h).max_abs_g = 0 ∧
       (Rgb24.compute_frame_diff frame a b w h).max_abs_b = 0)) ∧
    ((Rgb24.compute_frame_diff frame a b w h).bbox = none ↔
      (Rgb24.compute_frame_diff frame a b w h).pixels_diff = 0) := by
  have hpd : (Rgb24.compute_frame_diff frame a b w h).pixels_diff =
      (Rgb24.frame_acc a b w h).pixels_diff := rfl
  have hbbox : (Rgb24.compute_frame_diff frame a b w h).bbox =
      (if (Rgb24.frame_acc a b w h).pixels_diff = 0 then none
       else some ((Rgb24.frame_acc a b w h).min_x, (Rgb24.frame_acc a b w h).min_y,
         (Rgb24.frame_acc a b w h).max_x, (Rgb24.frame_acc a b w h).max_y)) := rfl
  have hmr : (Rgb24.compute_frame_diff frame a b w h).mean_abs_r =
      (if (Rgb24.frame_acc a b w h).pixels_diff = 0 then 0
       else ((Rgb24.frame_acc a b w h).sum_abs_r : ℚ) / ((Rgb24.frame_acc a b w h).pixels_diff : ℚ)) := rfl
  have hmg : (Rgb24.compute_frame_diff frame a b w h).mean_abs_g =
      (if (Rgb24.frame_acc a b w h).pixels_diff = 0 then 0
       else ((Rgb24.frame_acc a b w h).sum_abs_g : ℚ) / ((Rgb24.frame_acc a b w h).pixels_diff : ℚ)) := rfl
  have hmb : (Rgb24.compute_frame_diff frame a b w h).mean_abs_b =
      (if (Rgb24.frame_acc a b w h).pixels_diff = 0 then 0
       else ((Rgb24.frame_acc a b w h).sum_abs_b : ℚ) / ((Rgb24.frame_acc a b w h).pixels_diff : ℚ)) := rfl
  have hxr : (Rgb24.compute_frame_diff frame a b w h).max_abs_r =
      (Rgb24.frame_acc a b w h).max_abs_r := rfl
  have hxg : (Rgb24.compute_frame_diff frame a b w h).max_abs_g =
      (Rgb24.frame_acc a b w h).max_abs_g := rfl
  have hxb : (Rgb24.compute_frame_diff frame a b w h).max_abs_b =
      (Rgb24.frame_acc a b w h).max_abs_b := rfl
  rw [hpd, hbbox, hmr, hmg, hmb, hxr, hxg, hxb]
  by_cases hz : (Rgb24.frame_acc a b w h).pixels_diff = 0
  · have hinit : Rgb24.frame_acc a b w h = Rgb24.init_acc w h :=
      fold_pd_zero w _ _ hz
    refine ⟨?_, by simp [hz]⟩
    have hmax : (Rgb24.frame_acc a b w h).max_abs_r = 0 ∧
        (Rgb24.frame_acc a b w h).max_abs_g = 0 ∧
        (Rgb24.frame_acc a b w h).max_abs_b = 0 := by
      rw [hinit]
      exact ⟨rfl, rfl, rfl⟩
    simp [hz, hmax.1, hmax.2.1, hmax.2.2]
  · refine ⟨?_, by simp [hz]⟩
    simp [hz]

/-- **C10.** The 1bpp mask unpacker is total and zero-padding: for every byte
string (also when shorter or longer than the geometry needs) and every width
and height, `unpack_mask` returns exactly `width*height` values, each 0 or 1,
where pixel `i` equals bit `i % 8` of byte `i / 8` when that byte exists and
0 otherwise.  (Totality — "no input raises" — is inherent: the function is
defined on all inputs.) -/
theorem C10_unpack_mask_total (data : List Nat) (width height : Nat) :
    (MaskDiff.unpack_mask data width height).length = width * height ∧
    ∀ i, i < width * height →
      ((MaskDiff.unpack_mask data width height).getD i 0 =
        if i / 8 < data.length then (data.getD (i / 8) 0 >>> (i % 8)) &&& 1 else 0) ∧
      ((MaskDiff.unpack_mask data width height).getD i 0 = 0 ∨
        (MaskDiff.unpack_mask data width height).getD i 0 = 1) := by
  have hlen : (data.flatMap MaskDiff.byte_bits).length = 8 * data.length := flat_bits_length data
  constructor
  · simp only [MaskDiff.unpack_mask, List.length_append, List.length_take,
      List.length_replicate, hlen]
    omega
  · intro i hi
    have hcond : i / 8 < data.length ↔ i < 8 * data.length := by
      rw [Nat.div_lt_iff_lt_mul (by omega)]
      omega
    have hval : (MaskDiff.unpack_mask data width height).getD i 0 =
        if i / 8 < data.length then (data.getD (i / 8) 0 >>> (i % 8)) &&& 1 else 0 := by
      unfold MaskDiff.unpack_mask
      by_cases hb : i < 8 * data.length
      · rw [List.getD_append _ _ _ _ (by rw [List.length_take, hlen]; omega)]
        rw [List.getD_eq_getElem?_getD, List.getElem?_take, if_pos hi,
          ← List.getD_eq_getElem?_getD, flat_bits_getD data i hb,
          if_pos (hcond.mpr hb)]
      · rw [List.getD_append_right _ _ _ _ (by rw [List.length_take, hlen]; omega)]
        rw [if_neg (fun hc => hb (hcond.mp hc)), List.getD_eq_getElem?_getD,
          List.getElem?_replicate]
        split <;> simp
    refine ⟨hval, ?_⟩
    rw [hval]
    split
    · rw [Nat.and_one_is_mod]
      exact Nat.mod_two_eq_zero_or_one _
    · exact Or.inl rfl

/-- Witness for C10: one byte `5`, an 8×1 mask; pixel 0 is bit 0 of byte 0. -/
theorem C10_unpack_mask_total_witness :
    (MaskDiff.unpack_mask [5] 8 1).length = 8 * 1 ∧
    ((MaskDiff.unpack_mask [5] 8 1).getD 0 0 =
      if 0 / 8 < ([5] : List Nat).length then
        (([5] : List Nat).getD (0 / 8) 0 >>> (0 % 8)) &&& 1 else 0) :=
  ⟨(C10_unpack_mask_total [5] 8 1).1, ((C10_unpack_mask_total [5] 8 1).2 0 (by decide)).1⟩

end Nesium
